import Mathlib

/-!
Verification development for the reflspeckit spectral-processing library.

Arrays of IEEE floats are modelled as lists (along the spectral axis) and
nested lists (spatial rows × pixels × bands) of exact rationals; machine
linear algebra is modelled with Mathlib matrices over `ℚ`.  `np.linalg.inv`,
which raises `LinAlgError` on a singular input, is modelled as an
`Option`-valued inverse.  Values that numpy would set to NaN are modelled
with `Option` where a claim depends on them.
-/

namespace Reflspeckit

/-- Python's built-in `round(q, 0)`: round half to even (banker's rounding).
Modelled on exact rationals; the callers in this development only apply it
away from representability corner cases of binary floating point. -/
def pythonRound (q : ℚ) : ℤ :=
  let f : ℤ := ⌊q⌋
  let frac : ℚ := q - f
  if frac > 1/2 then f + 1
  else if frac < 1/2 then f
  else if f % 2 = 0 then f else f + 1

/-- `round_to_odd` from `reflspeckit/spec3D/utils.py`: round to nearest
integer, and if that is even, shift by one toward the unrounded value
(down by one on exact ties). -/
def round_to_odd (num : ℚ) : ℤ :=
  let r := pythonRound num
  if r % 2 = 0 then
    if num - r ≠ 0 then
      r + (if num - (r : ℚ) > 0 then 1 else -1)
    else r - 1
  else r

/-- `np.argmin` along a 1-D array: index of the first occurrence of the
minimum (numpy returns the first index on ties); `0` for an empty list. -/
def np_argmin (l : List ℚ) : ℕ :=
  match l with
  | [] => 0
  | x :: xs =>
    (xs.foldl (fun (acc : ℕ × ℚ × ℕ) v =>
      let (bi, bv, i) := acc
      if v < bv then (i, v, i + 1) else (bi, bv, i + 1)) (0, x, 1)).1

/-- `np.argmax` along a 1-D array: index of the first occurrence of the
maximum; `0` for an empty list. -/
def np_argmax (l : List ℚ) : ℕ :=
  match l with
  | [] => 0
  | x :: xs =>
    (xs.foldl (fun (acc : ℕ × ℚ × ℕ) v =>
      let (bi, bv, i) := acc
      if v > bv then (i, v, i + 1) else (bi, bv, i + 1)) (0, x, 1)).1

/-- `find_wvl` from `reflspeckit/utils/wvl_search.py` (array branch):
index of the wavelength sample nearest the target. -/
def findWvl (wvls : List ℚ) (target : ℚ) : ℕ :=
  np_argmin (wvls.map (fun w => |w - target|))

/-- Evaluate a (slope, intercept) pair at `x`. -/
def lineAt (p : ℚ × ℚ) (x : ℚ) : ℚ := p.1 * x + p.2

/-! ### Design-matrix fitter (`np.vander`-based least squares) -/

/-- `np.vander(x, cols)` with the default decreasing powers:
entry `(i, j) = x i ^ (cols - 1 - j)`. -/
def npVander {N : ℕ} (x : Fin N → ℚ) (cols : ℕ) :
    Matrix (Fin N) (Fin cols) ℚ :=
  Matrix.of fun i j => x i ^ (cols - 1 - (j : ℕ))

/-- `np.vander(x, cols, increasing=True)`: entry `(i, j) = x i ^ j`. -/
def npVanderInc {N : ℕ} (x : Fin N → ℚ) (cols : ℕ) :
    Matrix (Fin N) (Fin cols) ℚ :=
  Matrix.of fun i j => x i ^ (j : ℕ)

/-- Executable determinant by Laplace expansion along the first row
(Mathlib's `Matrix.det` does not reduce in the kernel). -/
def detFin : (n : ℕ) → Matrix (Fin n) (Fin n) ℚ → ℚ
  | 0, _ => 1
  | n + 1, A =>
    ((List.finRange (n + 1)).map (fun (j : Fin (n + 1)) =>
      (-1 : ℚ) ^ (j : ℕ) * A 0 j *
        detFin n (A.submatrix Fin.succ j.succAbove))).sum

theorem detFin_eq {n : ℕ} (A : Matrix (Fin n) (Fin n) ℚ) :
    detFin n A = A.det := by
  induction n with
  | zero => simp [detFin, Matrix.det_isEmpty]
  | succ n ih =>
    rw [Matrix.det_succ_row_zero, Fin.sum_univ_def]
    simp only [detFin, ih]

/-- Executable cofactor-transpose (adjugate) matrix. -/
def adjugateFin : (n : ℕ) → Matrix (Fin n) (Fin n) ℚ → Matrix (Fin n) (Fin n) ℚ
  | 0, _ => 1
  | n + 1, A => Matrix.of fun i j =>
      (-1 : ℚ) ^ ((j : ℕ) + (i : ℕ)) *
        detFin n (A.submatrix j.succAbove i.succAbove)

theorem adjugateFin_eq {n : ℕ} (A : Matrix (Fin n) (Fin n) ℚ) :
    adjugateFin n A = A.adjugate := by
  cases n with
  | zero =>
    apply Matrix.ext
    exact fun i => i.elim0
  | succ n =>
    apply Matrix.ext
    intro i j
    rw [Matrix.adjugate_fin_succ_eq_det_submatrix]
    simp only [adjugateFin, Matrix.of_apply, detFin_eq]

/-- Mathematical inverse by adjugate (meaningful when the determinant is
nonzero). -/
def matInv {n : ℕ} (A : Matrix (Fin n) (Fin n) ℚ) : Matrix (Fin n) (Fin n) ℚ :=
  (detFin n A)⁻¹ • adjugateFin n A

/-- `np.linalg.inv`: returns the inverse, raising `LinAlgError` (modelled as
`none`) when the matrix is singular. -/
def npLinalgInv {n : ℕ} (A : Matrix (Fin n) (Fin n) ℚ) :
    Option (Matrix (Fin n) (Fin n) ℚ) :=
  if detFin n A = 0 then none else some (matInv A)

theorem matInv_mul {n : ℕ} (A : Matrix (Fin n) (Fin n) ℚ) (h : A.det ≠ 0) :
    matInv A * A = 1 := by
  unfold matInv
  rw [detFin_eq, adjugateFin_eq, Matrix.smul_mul, Matrix.adjugate_mul,
    smul_smul, inv_mul_cancel₀ h, one_smul]

/-! ### Polynomial fitting (`reflspeckit/spec3D/polyfit.py` and
`reflspeckit/spec1D/polyfit.py`) -/

/-- A spectral cube: spatial rows × pixels × spectral bands. -/
abbrev Cube := List (List (List ℚ))

/-- Map a pixel-spectrum transformation over every pixel of a cube. -/
def cubeMap (f : List ℚ → List ℚ) (c : Cube) : Cube :=
  c.map (fun row => row.map f)

/-- `CubeFitResult` from `reflspeckit/spec3D/polyfit.py`. -/
structure CubeFitResult where
  xdata : List ℚ
  ydata : Cube
  model : Cube
  beta : List (List (List ℚ))
  res : Cube

/-- Per-pixel mean of a spectrum (`np.mean` along the spectral axis). -/
def pixelMean (y : List ℚ) : ℚ := y.sum / y.length

/-- `CubeFitResult.r_squared`: `ss_res` is taken per pixel (`axis=2`), but
`ss_tot` is `np.sum` with **no axis argument**, i.e. a single scalar summed
over the whole cube (spatial axes included). -/
def CubeFitResult.r_squared (f : CubeFitResult) : List (List ℚ) :=
  let ss_tot : ℚ :=
    (f.ydata.map (fun row =>
      (row.map (fun y => (y.map (fun v => (v - pixelMean y) ^ 2)).sum)).sum)).sum
  f.res.map (fun row => row.map (fun r =>
    1 - ((r.map (fun v => v ^ 2)).sum) / ss_tot))

/-- `polyfit_cube` from `reflspeckit/spec3D/polyfit.py`:
`X = np.vander(wvl, order + 1)` (decreasing powers),
`prefix = inv(Xᵗ X) Xᵗ` computed once and shared across all pixels,
`beta = prefix ⬝ y`, `model = X ⬝ beta`, `residual = y − model`.
`np.linalg.inv` raising on a singular `Xᵗ X` aborts the whole call
(modelled by `none`). -/
def polyfit_cube (spectral_cube : Cube) (wvl : List ℚ) (order : ℕ) :
    Option CubeFitResult :=
  let X := npVander (fun i : Fin wvl.length => wvl.get i) (order + 1)
  (npLinalgInv (X.transpose * X)).map (fun inv =>
    let P := inv * X.transpose
    let betaPix : List ℚ → List ℚ := fun y =>
      List.ofFn (P.mulVec (fun i => y.getD i 0))
    let modelPix : List ℚ → List ℚ := fun b =>
      List.ofFn (X.mulVec (fun j : Fin (order + 1) => b.getD j 0))
    let beta := spectral_cube.map (fun row => row.map betaPix)
    let model := beta.map (fun row => row.map modelPix)
    let res := (spectral_cube.zip model).map (fun rr =>
      (rr.1.zip rr.2).map (fun pp =>
        (pp.1.zip pp.2).map (fun vv => vv.1 - vv.2)))
    ⟨wvl, spectral_cube, model, beta, res⟩)

/-- `SingleFitResult` from `reflspeckit/spec1D/polyfit.py`. -/
structure SingleFitResult where
  xdata : List ℚ
  ydata : List ℚ
  model : List ℚ
  beta : List ℚ
  res : List ℚ

/-- `SingleFitResult.r_squared`: the whole-spectrum coefficient of
determination (`ss_res` and `ss_tot` summed over the single spectrum). -/
def SingleFitResult.r_squared (f : SingleFitResult) : ℚ :=
  1 - ((f.res.map (fun v => v ^ 2)).sum) /
      ((f.ydata.map (fun v => (v - pixelMean f.ydata) ^ 2)).sum)

/-- `polyfit_single` from `reflspeckit/spec1D/polyfit.py`:
`X = np.vander(wvl, order + 1, increasing=True)` (ascending powers),
`beta = inv(Xᵗ X) (Xᵗ y)`, `residual = model − spectrum`. -/
def polyfit_single (spectrum : List ℚ) (wvl : List ℚ) (order : ℕ) :
    Option SingleFitResult :=
  let X := npVanderInc (fun i : Fin wvl.length => wvl.get i) (order + 1)
  (npLinalgInv (X.transpose * X)).map (fun inv =>
    let beta := inv.mulVec (X.transpose.mulVec (fun i => spectrum.getD i 0))
    let model := X.mulVec beta
    ⟨wvl, spectrum, List.ofFn model, List.ofFn beta,
      List.ofFn (fun i => model i - spectrum.getD i 0)⟩)

/-- Per-pixel order-1 fit as performed inside `box_filter_cube` via
`polyfit_cube(..., 1)`: returns `(beta 0, beta 1)`, the coefficient of `x`
first (decreasing-powers design matrix). -/
def fitLineBeta (xs ys : List ℚ) : Option (ℚ × ℚ) :=
  let X := npVander (fun i : Fin xs.length => xs.get i) 2
  (npLinalgInv (X.transpose * X)).map (fun inv =>
    let b := (inv * X.transpose).mulVec (fun i => ys.getD i 0)
    (b 0, b 1))

/-! ### Batched per-pixel-design-matrix fitter
(`spectralcubekit/linear_fitting.py`) -/

/-- Result cube of `_fit_cube_varX` (coefficients, fitted model,
residuals; the `xdata`/`ydata` bookkeeping fields are carried by the
caller's arguments). -/
structure VarXFit (N M : ℕ) where
  beta : List (List (Fin M → ℚ))
  model : List (List (Fin N → ℚ))
  res : List (List (Fin N → ℚ))

/-- Apply a binary operation pixelwise across two row-of-pixel grids. -/
def zipPix {α β γ : Type} (f : α → β → γ)
    (a : List (List α)) (b : List (List β)) : List (List γ) :=
  (a.zip b).map (fun rr => (rr.1.zip rr.2).map (fun pp => f pp.1 pp.2))

/-- `_fit_cube_varX` from `spectralcubekit/linear_fitting.py`:
per-pixel design matrices `G`, batched `GtG = Gᵗ G`, one batched
`np.linalg.inv(GtG)` call — which raises `LinAlgError` (modelled `none`)
as soon as any pixel's `GtG` is singular — then per-pixel
`beta = GtG⁻¹ Gᵗ d`, `model = G beta`, `res = model − d`. -/
def fit_cube_varX {N M : ℕ} (G : List (List (Matrix (Fin N) (Fin M) ℚ)))
    (d : List (List (Fin N → ℚ))) : Option (VarXFit N M) :=
  (G.mapM (fun row : List (Matrix (Fin N) (Fin M) ℚ) =>
      row.mapM (fun g => npLinalgInv (g.transpose * g)))).map
    (fun GtG_inv =>
      let P := zipPix (fun inv g => inv * g.transpose) GtG_inv G
      let beta := zipPix (fun p dv => Matrix.mulVec p dv) P d
      let model := zipPix (fun g bv => Matrix.mulVec g bv) G beta
      let res := zipPix (fun mv dv => fun i => mv i - dv i) model d
      ⟨beta, model, res⟩)

/-- `fit_single_line` from `spectralcubekit/linear_fitting.py`: closed-form
whole-spectrum line fit that raises `ValueError` (modelled `none`) when the
least-squares denominator `n Σx² − (Σx)²` is zero.  Returns
`(slope, intercept, r_squared)`; the standard error (a square root of the
returned variance) is not needed by any claim and is omitted. -/
def fit_single_line (x y : List ℚ) : Option (ℚ × ℚ × ℚ) :=
  let n : ℚ := x.length
  let sum_x := x.sum
  let sum_y := y.sum
  let sum_xx := (x.map (fun v => v * v)).sum
  let sum_xy := ((x.zip y).map (fun p => p.1 * p.2)).sum
  let denominator := n * sum_xx - sum_x ^ 2
  if denominator = 0 then none
  else
    let slope := (n * sum_xy - sum_x * sum_y) / denominator
    let intercept := (sum_y * sum_xx - sum_x * sum_xy) / denominator
    let model := x.map (fun v => slope * v + intercept)
    let ssres := ((y.zip model).map (fun p => (p.1 - p.2) ^ 2)).sum
    let sstot := (y.map (fun v => (v - pixelMean y) ^ 2)).sum
    some (slope, intercept, 1 - ssres / sstot)

/-! ### Piecewise-linear interpolator
(`CubeInterpolator` in `reflspeckit/spec3D/utils.py`).

All interpolation is per pixel along the spectral axis; a cube call maps
the per-pixel function over the pixel grid, so the per-pixel functions
below carry the whole semantics. -/

/-- Slope and intercept of tie-point segment `n`:
`m = (y₂ − y₁)/(x₂ − x₁)`, `b = y₁ − m x₁`. -/
def segParams (xpts ypts : List ℚ) (n : ℕ) : ℚ × ℚ :=
  let x1 := xpts.getD n 0
  let x2 := xpts.getD (n + 1) 0
  let y1 := ypts.getD n 0
  let y2 := ypts.getD (n + 1) 0
  let m := (y2 - y1) / (x2 - x1)
  (m, y1 - m * x1)

/-- The `funclist` of `_linear_constX`: one line per segment, then
`funclist.insert(0, funclist[0])` and `funclist.append(funclist[-1])`
(the first and last segment lines are duplicated for the two
out-of-range branches). -/
def constXFuncs (xpts ypts : List ℚ) : List (ℚ × ℚ) :=
  let nseg := xpts.length - 1
  let fl := (List.range nseg).map (segParams xpts ypts)
  fl.headD (0, 0) :: (fl ++ [fl.getLastD (0, 0)])

/-- The `condlist` of `_linear_constX` evaluated at one query `x`:
`x < xpts[0]`, then left-inclusive right-exclusive bins (the last bin
right-inclusive), then `x > xpts[-1]`. -/
def constXConds (xpts : List ℚ) (x : ℚ) : List Bool :=
  let nseg := xpts.length - 1
  (decide (x < xpts.headD 0)) ::
    ((List.range nseg).map (fun n =>
      if n = nseg - 1 then
        decide (xpts.getD n 0 ≤ x) && decide (x ≤ xpts.getD (n + 1) 0)
      else
        decide (xpts.getD n 0 ≤ x) && decide (x < xpts.getD (n + 1) 0))
    ++ [decide (xpts.getLastD 0 < x)])

/-- The result-assembly loop `result[:, :, cnd] = fnc(xvals[cnd])` of
`_linear_constX` at one query: pairs are processed in order, each true
condition overwriting the value (the result starts as NaN = `none`). -/
def piecewiseAt (conds : List Bool) (fns : List (ℚ × ℚ)) (x : ℚ) : Option ℚ :=
  (conds.zip fns).foldl
    (fun acc cf => if cf.1 then some (lineAt cf.2 x) else acc) none

/-- `CubeInterpolator._linear_constX`, per pixel: shared tie-point x values
`xpts`, this pixel's tie-point y values `ypts`, queries `xvals`. -/
def linear_constX (xpts ypts : List ℚ) (xvals : List ℚ) : List (Option ℚ) :=
  xvals.map (fun x => piecewiseAt (constXConds xpts x) (constXFuncs xpts ypts) x)

/-- The per-pixel slope/intercept records of `_linear_varX`: segments
`0 .. M−2`, then `np.concat` duplicates the last record. -/
def varXParams (xpts ypts : List ℚ) : List (ℚ × ℚ) :=
  let nseg := xpts.length
  let base := (List.range (nseg - 1)).map (segParams xpts ypts)
  base ++ [base.getLastD (0, 0)]

/-- One query step of `_linear_varX`.  The code's temporaries
`slope_arr_temp` / `intcp_arr_temp` are **views** of column 0 of the
slope/intercept arrays, so every masked assignment writes through to that
column: `cur` is the live column-0 record, and the `j = 0` iteration reads
the (possibly already overwritten) column 0, i.e. `cur` itself; iterations
`j ≥ 1` read the untouched columns `j`. -/
def varXStep (xpts : List ℚ) (arr : List (ℚ × ℚ)) (cur : ℚ × ℚ) (x : ℚ) :
    ℚ × ℚ :=
  (List.range xpts.length).foldl
    (fun c j =>
      if xpts.getD j 0 < x then (if j = 0 then c else arr.getD j (0, 0)) else c)
    cur

/-- The query loop of `_linear_varX`: the corrupted column-0 record is
carried from query to query. -/
def varXGo (xpts : List ℚ) (arr : List (ℚ × ℚ)) :
    ℚ × ℚ → List ℚ → List ℚ
  | _, [] => []
  | cur, x :: rest =>
    let cur2 := varXStep xpts arr cur x
    lineAt cur2 x :: varXGo xpts arr cur2 rest

/-- `CubeInterpolator._linear_varX`, per pixel: this pixel's tie-point
x values `xpts` and y values `ypts`, queries `xvals`. -/
def linear_varX (xpts ypts : List ℚ) (xvals : List ℚ) : List ℚ :=
  let arr := varXParams xpts ypts
  varXGo xpts arr (arr.headD (0, 0)) xvals

/-! ### Box filter (`reflspeckit/spec3D/filtering.py`) -/

/-- `edge_length = int(np.maximum(round(nbands * 0.1, 0), 2))`. -/
def edge_length (nbands : ℕ) : ℕ :=
  max (pythonRound ((nbands : ℚ) * (1 / 10))).toNat 2

/-- `left_idx = np.arange(0, 1 + edge_length)`: the first
`edge_length + 1` sample indices. -/
def left_indices (nbands : ℕ) : List ℕ :=
  List.range (1 + edge_length nbands)

/-- `right_idx = np.arange(nbands - edge_length, nbands)`: the last
`edge_length` sample indices (one fewer than the left end uses). -/
def right_indices (nbands : ℕ) : List ℕ :=
  List.range' (nbands - edge_length nbands) (edge_length nbands)

/-- The left synthetic arm: degree-1 fit over the samples at
`left_indices`, evaluated (via `np.vander(left_ext, 2) @ beta`) at the
extrapolated indices `-W .. -1`. -/
def left_arm (y : List ℚ) (W : ℕ) : Option (List ℚ) :=
  (fitLineBeta ((left_indices y.length).map (fun i : ℕ => (i : ℚ)))
      ((left_indices y.length).map (fun i => y.getD i 0))).map
    (fun p => (List.range W).map (fun k => lineAt p ((k : ℚ) - (W : ℚ))))

/-- The right synthetic arm: degree-1 fit over the samples at
`right_indices`, evaluated at the extrapolated indices `N .. N+W−1`. -/
def right_arm (y : List ℚ) (W : ℕ) : Option (List ℚ) :=
  (fitLineBeta ((right_indices y.length).map (fun i : ℕ => (i : ℚ)))
      ((right_indices y.length).map (fun i => y.getD i 0))).map
    (fun p => (List.range W).map (fun k => lineAt p ((y.length : ℚ) + (k : ℚ))))

/-- One output sample of `convolve1d(ext, ones(W)) / W` after the
`[W:-W]` trim: the mean of the `W` extended samples centred (scipy
origin-0 convention) on extended index `i + W`.  For `0 ≤ i < N` the
window stays inside the extended array, so scipy's boundary mode is
never exercised on the retained samples. -/
def boxConvAt (ext : List ℚ) (W i : ℕ) : ℚ :=
  ((List.range W).map (fun k => ext.getD (i + W + W / 2 - k) 0)).sum / (W : ℚ)

/-- `box_filter_cube` from `reflspeckit/spec3D/filtering.py`, per pixel.
Returns the trimmed moving mean `mu` and the **variance**
`musq − mu²` (the code returns `sigma = sqrt(musq − mu²)`; every
consumer comparison is modelled on squares, which is exact for the
nonnegative thresholds used). `none` models the `LinAlgError` of a
singular edge fit. -/
def box_filter_pixel (y : List ℚ) (W : ℕ) : Option (List ℚ × List ℚ) :=
  (left_arm y W).bind (fun la =>
    (right_arm y W).map (fun ra =>
      let ext := la ++ y ++ ra
      let mu := (List.range y.length).map (boxConvAt ext W)
      let musq := (List.range y.length).map
        (boxConvAt (ext.map (fun v => v ^ 2)) W)
      (mu, (musq.zip mu).map (fun p => p.1 - p.2 ^ 2))))

/-- `box_filter_cube` over a cube: the per-pixel filter mapped across the
pixel grid, collecting the mean cube and the variance cube. -/
def box_filter_cube (cube : Cube) (window_size : ℕ) :
    Option (Cube × Cube) :=
  (cube.mapM (fun row : List (List ℚ) =>
    row.mapM (fun y => box_filter_pixel y window_size))).map
    (fun r => (r.map (fun row => row.map Prod.fst),
               r.map (fun row => row.map Prod.snd)))

/-! ### Outlier detector (`reflspeckit/spec3D/outlier_detection.py`) -/

/-- Neighbor-mean replacement value at index `i`: `np.roll` builds the
left/right neighbors, the wrapped entries are set to NaN, and
`np.nanmean` averages the remaining ones — so the first sample uses only
its right neighbor and the last only its left. -/
def neighborMean (y : List ℚ) (i : ℕ) : ℚ :=
  if i = 0 then y.getD 1 0
  else if i = y.length - 1 then y.getD (i - 1) 0
  else (y.getD (i - 1) 0 + y.getD (i + 1) 0) / 2

/-- `remove_outliers` from `reflspeckit/spec3D/outlier_detection.py`, per
pixel.  Window `max(round_to_odd(N·0.1), 3)`; a sample is an outlier when
`|y − mu| / sigma > threshold`, modelled squared as
`(y − mu)² > threshold² · var` (equivalent for `threshold ≥ 0`, including
the zero-variance cases where the float code produces ±inf or NaN
z-scores); flagged samples are replaced by the neighbor mean. -/
def remove_outliers_pixel (y : List ℚ) (threshold : ℚ) : Option (List ℚ) :=
  let W := max (round_to_odd ((y.length : ℚ) * (1 / 10))).toNat 3
  (box_filter_pixel y W).map (fun muvar =>
    (List.range y.length).map (fun i =>
      let v := y.getD i 0
      let mu := muvar.1.getD i 0
      let var := muvar.2.getD i 0
      if (v - mu) ^ 2 > threshold ^ 2 * var then neighborMean y i else v))

/-- `remove_outliers` over a cube (pixelwise along the spectral axis). -/
def remove_outliers (cube : Cube) (threshold : ℚ) : Option Cube :=
  cube.mapM (fun row : List (List ℚ) =>
    row.mapM (fun y => remove_outliers_pixel y threshold))

/-! ### Absorption-feature analyzer
(`reflspeckit/spec3D/absorption_feature3d.py`) -/

/-- `AbsorptionFeature3D.calculate_center`, per pixel:
`center_idx = np.argmin(model)`, band-center wavelength
`fit_wvl[center_idx]`, masked to NaN (`none`) when `center_idx == 0` or
when `center_idx == spec.shape[-1] - 1` — the latter compares against the
**full-cube** spectral length, not the sub-range length. -/
def calculate_center (model fit_wvl : List ℚ) (specLen : ℕ) : Option ℚ :=
  let idx := np_argmin model
  if idx = 0 ∨ idx = specLen - 1 then none else some (fit_wvl.getD idx 0)

/-- The `AbsorptionFeature3D` constructor followed by
`calculate_center`, for one pixel: slice `[find_wvl(low), find_wvl(high))`
of wavelength and spectrum, `polyfit_cube` of the given order on the
slice, then the band-center rule above with `specLen` the full spectrum
length.  `none` models a `LinAlgError` from the fit; the inner `Option`
is the NaN marker of the band-center map. -/
def absorption_center_pixel (spec wvl : List ℚ) (low high : ℚ)
    (fit_order : ℕ) : Option (Option ℚ) :=
  let low_idx := findWvl wvl low
  let high_idx := findWvl wvl high
  let fit_wvl := (wvl.drop low_idx).take (high_idx - low_idx)
  let fit_spec := (spec.drop low_idx).take (high_idx - low_idx)
  (polyfit_cube [[fit_spec]] fit_wvl fit_order).map (fun fr =>
    calculate_center ((fr.model.headD []).headD []) fit_wvl spec.length)

/-- `AbsorptionFeature3D.calculate_ibd`, per pixel: the integrated band
depth `Σ (1 − v)` over the sliced spectrum. -/
def calculate_ibd_pixel (fit_spec : List ℚ) : ℚ :=
  (fit_spec.map (fun v => 1 - v)).sum

/-! ### Continuum remover (`reflspeckit/spec3D/continuum_removal.py`) -/

/-- Wavelength units (`WvlUnit` in `reflspeckit/data_classes.py`). -/
inductive WvlUnit
  | nm
  | um
  | m
deriving DecidableEq, Repr

/-- `Wavelength` from `reflspeckit/data_classes.py` (the optional
`resolution` field is unused by the pipeline). -/
structure Wavelength where
  values : List ℚ
  unit : WvlUnit
deriving DecidableEq, Repr

/-- The unit scale factor applied to the nanometer constants of
`double_line` (`1`, `10⁻³`, `10⁻⁹`). -/
def unitFactor (u : WvlUnit) : ℚ :=
  match u with
  | .nm => 1
  | .um => 1 / 1000
  | .m => 1 / 1000000000

/-- NaN placeholder for the interpolator's unmatched-condition entries
inside `double_line`.  No claim reads continuum values, so IEEE NaN
propagation through the continuum division is not modelled further. -/
def unopt (x : Option ℚ) : ℚ := x.getD 0

/-- `double_line` from `reflspeckit/spec3D/continuum_removal.py`.
Pass 1: shared anchors {700, 1550, 2600} (unit-rescaled), nearest sample
per anchor, shared-X interpolation, divide.  Pass 2: per pixel, the
argmax of the pass-1 spectrum inside each of the three fixed sub-ranges,
variable-X interpolation through the original reflectances at those
indices, divide the original cube.  Returns (continuum-removed cube,
continuum cube). -/
def double_line (cube : Cube) (wvls : Wavelength) : Cube × Cube :=
  let anchor_pts := ([700, 1550, 2600] : List ℚ).map (· * unitFactor wvls.unit)
  let cont1_band_idx := anchor_pts.map (fun a =>
    np_argmin (wvls.values.map (fun w => |w - a|)))
  let cont1_band_wvls := cont1_band_idx.map (fun i => wvls.values.getD i 0)
  let continuum1 : Cube := cube.map (fun row => row.map (fun y =>
    (linear_constX cont1_band_wvls (cont1_band_idx.map (fun i => y.getD i 0))
      wvls.values).map unopt))
  let continuum1_removed : Cube := zipPix
    (fun y c => (y.zip c).map (fun p => p.1 / p.2)) cube continuum1
  let cont2_ranges := ([(650, 1000), (1350, 1600), (2000, 2600)] :
      List (ℚ × ℚ)).map
    (fun r => (r.1 * unitFactor wvls.unit, r.2 * unitFactor wvls.unit))
  let band2 : List (List (List ℕ)) := continuum1_removed.map (fun row =>
    row.map (fun y1 =>
      cont2_ranges.map (fun r =>
        let lo_idx := np_argmin (wvls.values.map (fun w => |w - r.1|))
        let hi_idx := np_argmin (wvls.values.map (fun w => |w - r.2|))
        np_argmax ((y1.drop lo_idx).take (hi_idx - lo_idx)) + lo_idx)))
  let continuum2 : Cube := zipPix
    (fun y (idxs : List ℕ) =>
      linear_varX (idxs.map (fun i => wvls.values.getD i 0))
        (idxs.map (fun i => y.getD i 0)) wvls.values)
    cube band2
  let continuum2_removed : Cube := zipPix
    (fun y c => (y.zip c).map (fun p => p.1 / p.2)) cube continuum2
  (continuum2_removed, continuum2)

/-! ### Orchestrator (`reflspeckit/spec3D/Spec3D.py`) -/

/-- `ProcessingFlag` from `reflspeckit/spec3D/Spec3D.py`. -/
inductive ProcessingFlag
  | RAW
  | OUTLIERS_REMOVED
  | FILTERED
  | CONTINUUM_REMOVED
deriving DecidableEq, Repr

/-- `FilterMethod` from `reflspeckit/data_classes.py` (a one-member
string enum). -/
inductive FilterMethod
  | box_filter
deriving DecidableEq, Repr

/-- `ContinuumMethod` from `reflspeckit/data_classes.py` (a one-member
string enum). -/
inductive ContinuumMethod
  | double_line
deriving DecidableEq, Repr

/-- The mutable state of a `Spec3D` instance: the cube buffer, the
wavelength object and the processing flag (`albedo` bookkeeping is not
claim-relevant and omitted). -/
structure Spec3DState where
  cube : Cube
  wavelength : Wavelength
  flag : ProcessingFlag
deriving Repr

/-- `Spec3D.__init__`: stores the cube and
`Wavelength(wvl_arr, "nm")` — the constructor's `unit` argument is
**ignored**; the flag starts at `RAW`. -/
def mkSpec3D (spec_arr : Cube) (wvl_arr : List ℚ) (_unit : WvlUnit) :
    Spec3DState :=
  { cube := spec_arr
    wavelength := { values := wvl_arr, unit := WvlUnit.nm }
    flag := ProcessingFlag.RAW }

/-- `Spec3D.outlier_removal` (default `sigma_threshold = 1.5`): always
re-runs, sets the flag to `OUTLIERS_REMOVED`.  `none` models an
uncaught numerical exception from the filter's edge fits. -/
def outlier_removal (s : Spec3DState) (sigma_threshold : ℚ) :
    Option Spec3DState :=
  (remove_outliers s.cube sigma_threshold).map (fun c =>
    { s with cube := c, flag := ProcessingFlag.OUTLIERS_REMOVED })

/-- `Spec3D.noise_reduction`: returns unchanged only when the flag is
exactly `FILTERED`; otherwise auto-runs `outlier_removal` (default 1.5)
whenever the flag is not exactly `OUTLIERS_REMOVED`, applies the box
filter, and sets the flag to `FILTERED`. -/
def noise_reduction (s : Spec3DState) (method : FilterMethod)
    (filter_width : ℕ) : Option Spec3DState :=
  if s.flag = ProcessingFlag.FILTERED then some s
  else
    (if s.flag ≠ ProcessingFlag.OUTLIERS_REMOVED then
        outlier_removal s (3 / 2)
      else some s).bind (fun s1 =>
      (if method = FilterMethod.box_filter then
          (box_filter_cube s1.cube filter_width).map (fun mc =>
            { s1 with cube := mc.1 })
        else some s1).map (fun s2 =>
        { s2 with flag := ProcessingFlag.FILTERED }))

/-- `Spec3D.continuum_removal`: returns unchanged only when the flag is
exactly `CONTINUUM_REMOVED`; otherwise auto-runs
`noise_reduction("box_filter", 7)` whenever the flag is not exactly
`FILTERED`, applies `double_line`, and sets the flag. -/
def continuum_removal (s : Spec3DState) (method : ContinuumMethod) :
    Option Spec3DState :=
  if s.flag = ProcessingFlag.CONTINUUM_REMOVED then some s
  else
    (if s.flag ≠ ProcessingFlag.FILTERED then
        noise_reduction s FilterMethod.box_filter 7
      else some s).map (fun s1 =>
      let s2 := if method = ContinuumMethod.double_line then
          { s1 with cube := (double_line s1.cube s1.wavelength).1 }
        else s1
      { s2 with flag := ProcessingFlag.CONTINUUM_REMOVED })

/-- The pipeline errors raised by the orchestrator and the absorption
feature.  Modelled from the spec: the `reflspeckit._errors` module
itself is not under `src/`; per the spec's error taxonomy, a mismatched
declared wavelength unit is a configuration error
(`WavelengthUnitError`) and a stage precondition violation is reported
to the caller (`ValueError` in `fit_absorption`). -/
inductive PipelineError
  | valueError
  | wavelengthUnitError
  | linAlgError
deriving DecidableEq, Repr

/-- The state owned by a constructed `AbsorptionFeature3D`: the sliced
wavelengths, the sliced spectra, the fit, and the full-cube spectral
length used by `calculate_center`. -/
structure AbsorptionFeature3DState where
  fit_wvl : List ℚ
  fit_spec : Cube
  fit_result : CubeFitResult
  specLen : ℕ

/-- The `AbsorptionFeature3D` constructor (default `fit_order = 4`):
raises `WavelengthUnitError` when the caller-declared unit differs from
the wavelength object's unit, slices `[find_wvl(low), find_wvl(high))`,
and fits the slice. -/
def absorptionFeature3D (contrem_spectrum : Cube) (wavelength : Wavelength)
    (low_wavelength high_wavelength : ℚ) (unit : WvlUnit)
    (fit_order : ℕ) : Except PipelineError AbsorptionFeature3DState :=
  if unit ≠ wavelength.unit then .error .wavelengthUnitError
  else
    let low_idx := findWvl wavelength.values low_wavelength
    let high_idx := findWvl wavelength.values high_wavelength
    let fit_wvl := (wavelength.values.drop low_idx).take (high_idx - low_idx)
    let fit_spec := cubeMap (fun y => (y.drop low_idx).take (high_idx - low_idx))
      contrem_spectrum
    match polyfit_cube fit_spec fit_wvl fit_order with
    | none => .error .linAlgError
    | some fr =>
      .ok { fit_wvl := fit_wvl, fit_spec := fit_spec, fit_result := fr
            specLen := ((contrem_spectrum.headD []).headD []).length }

/-- `Spec3D.fit_absorption`: raises `ValueError` unless the flag is
`CONTINUUM_REMOVED`, then constructs the `AbsorptionFeature3D` (which
performs the unit check). -/
def fit_absorption (s : Spec3DState) (low_wvl high_wvl : ℚ)
    (unit : WvlUnit) : Except PipelineError AbsorptionFeature3DState :=
  if s.flag ≠ ProcessingFlag.CONTINUUM_REMOVED then .error .valueError
  else absorptionFeature3D s.cube s.wavelength low_wvl high_wvl unit 4

/-- `Spec3D.make_m3_rgb`: raises `ValueError` unless the flag is
`CONTINUUM_REMOVED`, then requests two absorption fits with
`unit="um"`.  The final RGB assembly (`make_rgb_composite`, a
visualization collaborator outside the specified core) is represented by
the pair of integrated-band-depth maps it would consume. -/
def make_m3_rgb (s : Spec3DState) :
    Except PipelineError (List (List ℚ) × List (List ℚ)) :=
  if s.flag ≠ ProcessingFlag.CONTINUUM_REMOVED then .error .valueError
  else do
    let bnd1 ← fit_absorption s (789 / 1000) (1309 / 1000) WvlUnit.um
    let bnd2 ← fit_absorption s (1658 / 1000) (2498 / 1000) WvlUnit.um
    let ibd1 := bnd1.fit_spec.map (fun row => row.map calculate_ibd_pixel)
    let ibd2 := bnd2.fit_spec.map (fun row => row.map calculate_ibd_pixel)
    return (ibd1, ibd2)

/-- The explicit pipeline calls a caller can make on a `Spec3D`
instance. -/
inductive PipelineOp
  | outlierRemoval (sigma_threshold : ℚ)
  | noiseReduction (method : FilterMethod) (filter_width : ℕ)
  | continuumRemoval (method : ContinuumMethod)

/-- Run one pipeline call. -/
def runOp (s : Spec3DState) : PipelineOp → Option Spec3DState
  | .outlierRemoval t => outlier_removal s t
  | .noiseReduction m w => noise_reduction s m w
  | .continuumRemoval m => continuum_removal s m

/-- Run a sequence of pipeline calls (an exception anywhere aborts). -/
def runOps (ops : List PipelineOp) (s : Spec3DState) : Option Spec3DState :=
  match ops with
  | [] => some s
  | op :: rest => (runOp s op).bind (runOps rest)

/-! ### Following the spec's words (for comparison with the source)

The spec describes the box-filter edge fits as using the first/last
`⌈max(10% of length, 2)⌉ + 1` real samples; these definitions transcribe
that sentence so the source behaviour can be compared against it. -/

/-- The spec's edge-fit sample count: `⌈max(10% of length, 2)⌉ + 1`. -/
def spec_edge_count (nbands : ℕ) : ℕ :=
  (⌈max ((nbands : ℚ) * (1 / 10)) 2⌉).toNat + 1

/-- The left synthetic arm as the spec describes it: a degree-1 fit over
the first `spec_edge_count` real samples, evaluated at the extrapolated
indices `-W .. -1`. -/
def spec_left_arm (y : List ℚ) (W : ℕ) : Option (List ℚ) :=
  (fitLineBeta ((List.range (spec_edge_count y.length)).map (fun i : ℕ => (i : ℚ)))
      ((List.range (spec_edge_count y.length)).map (fun i => y.getD i 0))).map
    (fun p => (List.range W).map (fun k => lineAt p ((k : ℚ) - (W : ℚ))))

/-! ## Concrete evaluation lemmas

Rational arithmetic does not reduce in the kernel, so concrete pipeline
evaluations are established step by step with `simp`/`norm_num`. -/

theorem left_indices_7 : left_indices 7 = [0, 1, 2] := by
  norm_num [left_indices, edge_length, pythonRound, List.range_succ]

theorem right_indices_7 : right_indices 7 = [5, 6] := by
  norm_num [right_indices, edge_length, pythonRound, List.range']

theorem fitLineBeta_012 : fitLineBeta [0, 1, 2] [1, 11/10, 6/5] = some (1/10, 1) := by
  simp only [fitLineBeta, npVander, npLinalgInv, matInv, detFin, adjugateFin,
    List.length_cons, List.length_nil]
  norm_num [Matrix.mul_apply, Matrix.mulVec, Matrix.dotProduct, Fin.sum_univ_succ,
    Matrix.transpose_apply, Matrix.of_apply, List.finRange_succ, List.finRange_zero,
    Matrix.submatrix_apply, Fin.succAbove]

theorem fitLineBeta_56 : fitLineBeta [5, 6] [6/5, 11/10] = some (-1/10, 17/10) := by
  simp only [fitLineBeta, npVander, npLinalgInv, matInv, detFin, adjugateFin,
    List.length_cons, List.length_nil]
  norm_num [Matrix.mul_apply, Matrix.mulVec, Matrix.dotProduct, Fin.sum_univ_succ,
    Matrix.transpose_apply, Matrix.of_apply, List.finRange_succ, List.finRange_zero,
    Matrix.submatrix_apply, Fin.succAbove]

theorem left_arm_s9 : left_arm [1, 11/10, 6/5, 10, 13/10, 6/5, 11/10] 3
    = some [7/10, 4/5, 9/10] := by
  have h1 : ([1, 11/10, 6/5, 10, 13/10, 6/5, 11/10] : List ℚ).length = 7 := by
    norm_num
  rw [left_arm, h1, left_indices_7]
  norm_num [fitLineBeta_012, List.range_succ, lineAt]

theorem right_arm_s9 : right_arm [1, 11/10, 6/5, 10, 13/10, 6/5, 11/10] 3
    = some [1, 9/10, 4/5] := by
  have h1 : ([1, 11/10, 6/5, 10, 13/10, 6/5, 11/10] : List ℚ).length = 7 := by
    norm_num
  rw [right_arm, h1, right_indices_7]
  norm_num [fitLineBeta_56, List.range_succ, lineAt]

theorem box_filter_s9 : box_filter_pixel [1, 11/10, 6/5, 10, 13/10, 6/5, 11/10] 3
    = some ([1, 11/10, 41/10, 25/6, 25/6, 6/5, 11/10],
            [1/150, 1/150, 2611/150, 7657/450, 7657/450, 1/150, 1/150]) := by
  rw [box_filter_pixel, left_arm_s9, Option.some_bind, right_arm_s9,
    Option.map_some']
  norm_num [boxConvAt, List.range_succ, List.getD, List.getElem?_cons_zero,
    List.getElem?_cons_succ]

theorem remove_outliers_s9 :
    remove_outliers_pixel [1, 11/10, 6/5, 10, 13/10, 6/5, 11/10] 1
      = some [1, 11/10, 6/5, 5/4, 13/10, 6/5, 11/10] := by
  rw [remove_outliers_pixel]
  rw [show (max (round_to_odd ((([1, 11/10, 6/5, 10, 13/10, 6/5, 11/10] :
      List ℚ).length : ℚ) * (1 / 10))).toNat 3) = 3 by
    norm_num [round_to_odd, pythonRound]]
  rw [box_filter_s9, Option.map_some']
  norm_num [neighborMean, List.range_succ, List.getD, List.getElem?_cons_zero,
    List.getElem?_cons_succ]

/-! ## Claims -/

/-- C9: for the spectrum `[1.0, 1.1, 1.2, 10.0, 1.3, 1.2, 1.1]` there is a
(positive) threshold for which outlier removal returns
`[1.0, 1.1, 1.2, 1.25, 1.3, 1.2, 1.1]`: the sample at index 3 is replaced
by the mean of its immediate neighbors (1.2 and 1.3 → 1.25) and every
other sample is unchanged. -/
theorem C9_outlier_replacement :
    ∃ threshold : ℚ, 0 < threshold ∧
      remove_outliers [[[1, 11/10, 6/5, 10, 13/10, 6/5, 11/10]]] threshold
        = some [[[1, 11/10, 6/5, 5/4, 13/10, 6/5, 11/10]]] := by
  refine ⟨1, by norm_num, ?_⟩
  rw [remove_outliers]
  simp only [List.mapM_cons, List.mapM_nil, remove_outliers_s9]
  rfl

theorem polyfit_c2_slice : polyfit_cube [[[4, 3, 2]]] [1, 2, 3] 1
    = some ⟨[1, 2, 3], [[[4, 3, 2]]], [[[4, 3, 2]]], [[[-1, 5]]], [[[0, 0, 0]]]⟩ := by
  simp only [polyfit_cube, npVander, npLinalgInv, matInv, detFin, adjugateFin,
    List.length_cons, List.length_nil]
  norm_num [Matrix.mul_apply, Matrix.mulVec, Matrix.dotProduct, Fin.sum_univ_succ,
    Matrix.transpose_apply, Matrix.of_apply, List.finRange_succ, List.finRange_zero,
    Matrix.submatrix_apply, Fin.succAbove, List.ofFn_succ, List.getD,
    List.getElem?_cons_zero, List.getElem?_cons_succ]

/-- C2: the band-center map is required to report the undefined marker for
exactly the pixels whose fitted-model minimum falls on the first or last
index of the sub-range.  For the spectrum `[5,4,3,2,1]` over wavelengths
`[0,1,2,3,4]` with sub-range `[1, 4)` (sliced samples `[4,3,2]`, order-1
fit model `[4,3,2]`), the model's minimum falls on index 2 — the **last**
index of the 3-sample sub-range — yet the code returns the numeric
wavelength `3`, because `calculate_center` masks the last index against
the full spectral length (5) rather than the sub-range length (3). -/
theorem C2_band_center_boundary :
    absorption_center_pixel [5, 4, 3, 2, 1] [0, 1, 2, 3, 4] 1 4 1
        = some (some 3) ∧
      (polyfit_cube [[[4, 3, 2]]] [1, 2, 3] 1).map
        (fun fr => np_argmin ((fr.model.headD []).headD [])) = some 2 := by
  constructor
  · rw [absorption_center_pixel]
    rw [show findWvl [0, 1, 2, 3, 4] 1 = 1 by
      norm_num [findWvl, np_argmin, List.foldl]]
    rw [show findWvl [0, 1, 2, 3, 4] 4 = 4 by
      norm_num [findWvl, np_argmin, List.foldl]]
    norm_num [polyfit_c2_slice, calculate_center, np_argmin, List.foldl, List.getD]
  · rw [polyfit_c2_slice]
    norm_num [np_argmin, List.foldl]

theorem polyfit_c3_cube : polyfit_cube [[[0, 2], [0, 4]]] [0, 1] 0
    = some ⟨[0, 1], [[[0, 2], [0, 4]]], [[[1, 1], [2, 2]]], [[[1], [2]]],
            [[[-1, 1], [-2, 2]]]⟩ := by
  simp only [polyfit_cube, npVander, npLinalgInv, matInv, detFin, adjugateFin,
    List.length_cons, List.length_nil]
  norm_num [Matrix.mul_apply, Matrix.mulVec, Matrix.dotProduct, Fin.sum_univ_succ,
    Matrix.transpose_apply, Matrix.of_apply, List.finRange_succ, List.finRange_zero,
    Matrix.submatrix_apply, Fin.succAbove, List.ofFn_succ, List.getD,
    List.getElem?_cons_zero, List.getElem?_cons_succ]

/-- C3: the claim requires `r_squared` to be `1 − (Σres²)/(Σ(y − mean y)²)`
with both sums per pixel along the spectral axis.  For the 1×2-pixel cube
with spectra `[0,2]` and `[0,4]` and an order-0 fit (residuals `[-1,1]`
and `[-2,2]`), the per-pixel formula gives `0` for both pixels, but the
code returns `[[4/5, 1/5]]` because `ss_tot` is `np.sum` with no axis
argument — a single scalar (here `2 + 8 = 10`) summed across the spatial
grid. -/
theorem C3_r_squared_global_sstot :
    (polyfit_cube [[[0, 2], [0, 4]]] [0, 1] 0).map CubeFitResult.r_squared
        = some [[4/5, 1/5]] ∧
      1 - (((-1 : ℚ)) ^ 2 + 1 ^ 2) /
          (((0 : ℚ) - pixelMean [0, 2]) ^ 2 + ((2 : ℚ) - pixelMean [0, 2]) ^ 2)
        = 0 ∧
      (4/5 : ℚ) ≠ 0 := by
  refine ⟨?_, by norm_num [pixelMean], by norm_num⟩
  rw [polyfit_c3_cube, Option.map_some']
  norm_num [CubeFitResult.r_squared, pixelMean]

/-- C6: querying exactly at a tie-point x must return that tie point's y
value independently of the other queries in the query set.  For the
variable-X interpolator with tie points x = [0,1,2,3], y = [0,1,0,5], the
query set `[2.5, 1]` returns `-5` at the tie point `x = 1` (whose y value
is `1`): the temporary slope/intercept buffers are views of segment
column 0, and processing the earlier query `2.5` overwrites that column
with segment 2's line (`5x − 10`).  The same tie-point query alone
(query set `[1]`) returns the correct `1`. -/
theorem C6_varX_tie_point_aliasing :
    linear_varX [0, 1, 2, 3] [0, 1, 0, 5] [5/2, 1] = [5/2, -5] ∧
      linear_varX [0, 1, 2, 3] [0, 1, 0, 5] [1] = [1] ∧
      ((-5 : ℚ) ≠ 1) := by
  refine ⟨?_, ?_, by norm_num⟩ <;>
    norm_num [linear_varX, varXGo, varXStep, varXParams, segParams, lineAt,
      List.range_succ, List.foldl, List.getD, List.getElem?_cons_zero,
      List.getElem?_cons_succ]

/-! ## Helper lemmas on lists and the interpolator folds -/

theorem foldl_sel_all_false (x : ℚ) (l : List (Bool × (ℚ × ℚ))) (acc : Option ℚ)
    (h : ∀ p ∈ l, p.1 = false) :
    l.foldl (fun acc cf => if cf.1 then some (lineAt cf.2 x) else acc) acc = acc := by
  induction l generalizing acc with
  | nil => rfl
  | cons p ps ih =>
    have hp := h p (List.mem_cons_self p ps)
    simp only [List.foldl_cons, hp, if_neg Bool.false_ne_true]
    exact ih acc (fun q hq => h q (List.mem_cons_of_mem p hq))

theorem foldl_sel_append_last_true (x : ℚ) (l : List (Bool × (ℚ × ℚ)))
    (p : Bool × (ℚ × ℚ)) (acc : Option ℚ) (hp : p.1 = true) :
    (l ++ [p]).foldl (fun acc cf => if cf.1 then some (lineAt cf.2 x) else acc) acc
      = some (lineAt p.2 x) := by
  rw [List.foldl_append]
  simp [hp]

theorem headD_range_map {α : Type} (f : ℕ → α) (n : ℕ) (hn : 1 ≤ n) (d : α) :
    ((List.range n).map f).headD d = f 0 := by
  obtain ⟨m, rfl⟩ := Nat.exists_eq_add_of_le hn
  rw [Nat.add_comm 1 m, List.range_succ_eq_map]
  simp

theorem getLastD_range_map {α : Type} (f : ℕ → α) (n : ℕ) (hn : 1 ≤ n) (d : α) :
    ((List.range n).map f).getLastD d = f (n - 1) := by
  obtain ⟨m, rfl⟩ := Nat.exists_eq_add_of_le hn
  rw [Nat.add_comm 1 m, List.range_succ]
  simp

theorem getD_append_length {α : Type} (l : List α) (a d : α) :
    (l ++ [a]).getD l.length d = a := by
  rw [List.getD_eq_getElem?_getD, List.getElem?_append_right (le_refl _)]
  simp

theorem getD_concat_getLastD {α : Type} (l : List α) (d : α) (n : ℕ)
    (h : l.length = n) : (l ++ [l.getLastD d]).getD n d = l.getLastD d := by
  subst h
  exact getD_append_length _ _ _

theorem getD_eq_getElem (l : List ℚ) (i : ℕ) (h : i < l.length) (d : ℚ) :
    l.getD i d = l[i] := by
  rw [List.getD_eq_getElem?_getD, List.getElem?_eq_getElem h]
  rfl

theorem sorted_getD_lt (l : List ℚ) (hs : List.Sorted (· < ·) l)
    {i j : ℕ} (hij : i < j) (hj : j < l.length) :
    l.getD i 0 < l.getD j 0 := by
  have hi : i < l.length := lt_trans hij hj
  rw [getD_eq_getElem l i hi, getD_eq_getElem l j hj]
  exact List.pairwise_iff_get.mp hs ⟨i, hi⟩ ⟨j, hj⟩ hij

theorem sorted_getD_le (l : List ℚ) (hs : List.Sorted (· < ·) l)
    {i j : ℕ} (hij : i ≤ j) (hj : j < l.length) :
    l.getD i 0 ≤ l.getD j 0 := by
  rcases Nat.lt_or_ge i j with h | h
  · exact le_of_lt (sorted_getD_lt l hs h hj)
  · have : i = j := le_antisymm hij h
    rw [this]

theorem headD_eq_getD (l : List ℚ) (h : l ≠ []) : l.headD 0 = l.getD 0 0 := by
  cases l with
  | nil => exact absurd rfl h
  | cons a t => rfl

theorem getLastD_eq_getD (l : List ℚ) : l.getLastD 0 = l.getD (l.length - 1) 0 := by
  cases l with
  | nil => rfl
  | cons a t =>
    rw [List.getLastD_eq_getLast?, List.getLast?_eq_getElem?,
      List.getD_eq_getElem?_getD]

theorem headD_append_ne_nil {α : Type} (l : List α) (z : α) (d : α)
    (h : l ≠ []) : (l ++ [z]).headD d = l.headD d := by
  cases l with
  | nil => exact absurd rfl h
  | cons a t => rfl

theorem zip_cons_append_last {α β : Type} (a : α) (b : β) (l1 : List α)
    (l2 : List β) (x : α) (y : β) (h : l1.length = l2.length) :
    (a :: (l1 ++ [x])).zip (b :: (l2 ++ [y])) = ((a, b) :: l1.zip l2) ++ [(x, y)] := by
  rw [List.zip_cons_cons, List.zip_append h]
  simp

/-- Out-of-range queries below the first tie point select the (duplicated)
segment-0 line and evaluate it at the query x itself. -/
theorem constX_below (xpts ypts : List ℚ) (x : ℚ) (hlen : 2 ≤ xpts.length)
    (hsort : List.Sorted (· < ·) xpts) (hx : x < xpts.headD 0) :
    piecewiseAt (constXConds xpts x) (constXFuncs xpts ypts) x
      = some (lineAt (segParams xpts ypts 0) x) := by
  have hne : xpts ≠ [] := by
    intro h; rw [h] at hlen; exact absurd hlen (by norm_num)
  have hnseg : 1 ≤ xpts.length - 1 := by omega
  have hx0 : x < xpts.getD 0 0 := by rwa [headD_eq_getD xpts hne] at hx
  have hxn : ∀ n, n < xpts.length → x < xpts.getD n 0 := by
    intro n hn
    exact lt_of_lt_of_le hx0 (sorted_getD_le xpts hsort (Nat.zero_le n) hn)
  rw [piecewiseAt, constXConds, constXFuncs]
  rw [List.zip_cons_cons, List.foldl_cons]
  rw [if_pos (by rw [decide_eq_true_eq]; exact hx)]
  rw [foldl_sel_all_false]
  · rw [headD_range_map _ _ hnseg]
  · intro p hp
    have hmem := List.of_mem_zip hp
    rcases List.mem_append.mp hmem.1 with hmid | hlast
    · obtain ⟨n, hn, heq⟩ := List.mem_map.mp hmid
      have hnlt : n < xpts.length - 1 := List.mem_range.mp hn
      have hfalse : decide (xpts.getD n 0 ≤ x) = false := by
        rw [decide_eq_false_iff_not]
        exact not_le.mpr (hxn n (by omega))
      rw [← heq]
      rcases eq_or_ne n (xpts.length - 1 - 1) with hcase | hcase
      · rw [if_pos hcase, hfalse, Bool.false_and]
      · rw [if_neg hcase, hfalse, Bool.false_and]
    · rw [List.mem_singleton.mp hlast, decide_eq_false_iff_not]
      rw [getLastD_eq_getD]
      exact not_lt.mpr (le_of_lt (hxn _ (by omega)))

/-- Out-of-range queries above the last tie point select the (duplicated)
last-segment line and evaluate it at the query x itself. -/
theorem constX_above (xpts ypts : List ℚ) (x : ℚ) (hlen : 2 ≤ xpts.length)
    (hx : xpts.getLastD 0 < x) :
    piecewiseAt (constXConds xpts x) (constXFuncs xpts ypts) x
      = some (lineAt (segParams xpts ypts (xpts.length - 2)) x) := by
  have hnseg : 1 ≤ xpts.length - 1 := by omega
  rw [piecewiseAt, constXConds, constXFuncs]
  rw [zip_cons_append_last _ _ _ _ _ _ (by simp)]
  rw [foldl_sel_append_last_true _ _ _ _ (by rw [decide_eq_true_eq]; exact hx)]
  rw [getLastD_range_map _ _ hnseg, Nat.sub_sub]

theorem foldl_keep {α β : Type} (l : List β) (f : α → β → α) (init : α)
    (h : ∀ acc b, b ∈ l → f acc b = acc) : l.foldl f init = init := by
  induction l generalizing init with
  | nil => rfl
  | cons b bs ih =>
    rw [List.foldl_cons, h init b (List.mem_cons_self b bs)]
    exact ih init (fun acc c hc => h acc c (List.mem_cons_of_mem b hc))

theorem varXStep_below (xpts : List ℚ) (arr : List (ℚ × ℚ)) (cur : ℚ × ℚ)
    (x : ℚ) (hne : xpts ≠ []) (hsort : List.Sorted (· < ·) xpts)
    (hx : x < xpts.headD 0) :
    varXStep xpts arr cur x = cur := by
  have hx0 : x < xpts.getD 0 0 := by rwa [headD_eq_getD xpts hne] at hx
  rw [varXStep]
  apply foldl_keep
  intro acc j hj
  rw [if_neg]
  rw [not_lt]
  exact le_of_lt (lt_of_lt_of_le hx0
    (sorted_getD_le xpts hsort (Nat.zero_le j) (List.mem_range.mp hj)))

theorem varXStep_above (xpts : List ℚ) (arr : List (ℚ × ℚ)) (cur : ℚ × ℚ)
    (x : ℚ) (hlen : 2 ≤ xpts.length) (hx : xpts.getLastD 0 < x) :
    varXStep xpts arr cur x = arr.getD (xpts.length - 1) (0, 0) := by
  have h1 : xpts.length = (xpts.length - 1) + 1 := by omega
  rw [varXStep, h1, List.range_succ, List.foldl_append, List.foldl_cons,
    List.foldl_nil]
  rw [if_pos (by rw [← getLastD_eq_getD]; exact hx)]
  rw [if_neg (by omega)]
  rw [Nat.add_sub_cancel]

theorem varXGo_cons (xpts : List ℚ) (arr : List (ℚ × ℚ)) (cur : ℚ × ℚ)
    (a : ℚ) (l : List ℚ) :
    varXGo xpts arr cur (a :: l)
      = lineAt (varXStep xpts arr cur a) a ::
          varXGo xpts arr (varXStep xpts arr cur a) l := rfl

theorem varXGo_append (xpts : List ℚ) (arr : List (ℚ × ℚ)) (l1 l2 : List ℚ) :
    ∀ cur, varXGo xpts arr cur (l1 ++ l2)
      = varXGo xpts arr cur l1
        ++ varXGo xpts arr (l1.foldl (varXStep xpts arr) cur) l2 := by
  induction l1 with
  | nil => intro cur; rfl
  | cons a l ih =>
    intro cur
    rw [List.cons_append, varXGo_cons, ih, varXGo_cons, List.cons_append,
      List.foldl_cons]

/-- C1 (amended): out-of-range queries are answered by the nearest boundary
segment's line **projected to the query's x** — not by the constant value at
the boundary tie point.  For the shared-X interpolator this holds for every
query below the minimum (segment-0 line) and above the maximum (last-segment
line); for the variable-X interpolator it holds for a below-minimum query
that is the only query of its set (later queries can read a column-0 buffer
corrupted by earlier queries) and for an above-maximum query in any
position. -/
theorem C1_extrapolation_projects_boundary_line
    (xpts ypts : List ℚ) (x : ℚ) (qs : List ℚ) (hlen : 2 ≤ xpts.length)
    (hsort : List.Sorted (· < ·) xpts) :
    (x < xpts.headD 0 →
      linear_constX xpts ypts [x] = [some (lineAt (segParams xpts ypts 0) x)] ∧
      linear_varX xpts ypts [x] = [lineAt (segParams xpts ypts 0) x]) ∧
    (xpts.getLastD 0 < x →
      linear_constX xpts ypts [x]
          = [some (lineAt (segParams xpts ypts (xpts.length - 2)) x)] ∧
      (linear_varX xpts ypts (qs ++ [x])).getLast?
          = some (lineAt (segParams xpts ypts (xpts.length - 2)) x)) := by
  have hne : xpts ≠ [] := by
    intro h; rw [h] at hlen; exact absurd hlen (by norm_num)
  have hnseg : 1 ≤ xpts.length - 1 := by omega
  have hbase_ne : ((List.range (xpts.length - 1)).map (segParams xpts ypts)) ≠ [] := by
    apply List.ne_nil_of_length_pos
    simp [hnseg]
    omega
  constructor
  · intro hx
    refine ⟨?_, ?_⟩
    · rw [linear_constX, List.map_cons, List.map_nil,
        constX_below xpts ypts x hlen hsort hx]
    · rw [linear_varX, varXParams, varXGo_cons]
      rw [varXStep_below _ _ _ _ hne hsort hx]
      rw [headD_append_ne_nil _ _ _ hbase_ne, headD_range_map _ _ hnseg]
      rfl
  · intro hx
    refine ⟨?_, ?_⟩
    · rw [linear_constX, List.map_cons, List.map_nil,
        constX_above xpts ypts x hlen hx]
    · rw [linear_varX, varXParams, varXGo_append,
        List.getLast?_append_of_ne_nil _ (by
          rw [varXGo_cons]; exact List.cons_ne_nil _ _)]
      rw [varXGo_cons]
      rw [varXStep_above _ _ _ _ hlen hx]
      rw [getD_concat_getLastD _ _ _ (by simp)]
      rw [getLastD_range_map _ _ hnseg, Nat.sub_sub]
      rfl

/-- C1 (counterexample to the claim as stated): for tie points x = [0, 1],
y = [0, 1], the query −1 (below the minimum) returns −1 — the segment-0
line `y = x` projected to the query — in both interpolators, whereas flat
extrapolation would return the boundary value 0. -/
theorem C1_flat_extrapolation_counterexample :
    linear_constX [0, 1] [0, 1] [-1] = [some (-1)] ∧
      linear_varX [0, 1] [0, 1] [-1] = [-1] ∧ ((-1 : ℚ) ≠ 0) := by
  refine ⟨?_, ?_, by norm_num⟩ <;>
    norm_num [linear_constX, linear_varX, piecewiseAt, constXConds, constXFuncs,
      varXGo, varXStep, varXParams, segParams, lineAt, List.range_succ,
      List.foldl, List.getD, List.getElem?_cons_zero, List.getElem?_cons_succ]

/-- Witness for `C1_extrapolation_projects_boundary_line` at tie points
x = [0, 1], y = [0, 1], with a below-minimum query −1 and an
above-maximum query 2. -/
theorem C1_extrapolation_witness :
    linear_constX [0, 1] [0, 1] [(-1 : ℚ)]
        = [some (lineAt (segParams [0, 1] [0, 1] 0) (-1))] ∧
      (linear_varX [0, 1] [0, 1] ([] ++ [(2 : ℚ)])).getLast?
        = some (lineAt (segParams [0, 1] [0, 1] (([0, 1] : List ℚ).length - 2)) 2) := by
  have hs : List.Sorted (· < ·) ([0, 1] : List ℚ) := by
    norm_num [List.sorted_cons]
  refine ⟨((C1_extrapolation_projects_boundary_line [0, 1] [0, 1] (-1) []
      (by norm_num) hs).1 (by norm_num [List.headD])).1,
    ((C1_extrapolation_projects_boundary_line [0, 1] [0, 1] 2 []
      (by norm_num) hs).2 (by norm_num [List.getLastD])).2⟩

/-! ## Least-squares recovery lemmas (order-1 fits on exact line data) -/

theorem det_vanderT_mul_vander {N : ℕ} (x : Fin N → ℚ) :
    ((npVander x 2).transpose * npVander x 2).det
      = (∑ i, x i ^ 2) * N - (∑ i, x i) ^ 2 := by
  rw [Matrix.det_fin_two]
  simp only [Matrix.mul_apply, Matrix.transpose_apply, npVander, Matrix.of_apply,
    Fin.val_zero, Fin.val_one]
  norm_num
  simp_rw [← sq]

theorem double_sum_sq {N : ℕ} (x : Fin N → ℚ) :
    (∑ i, ∑ j, (x i - x j) ^ 2) = 2 * ((∑ i, x i ^ 2) * N - (∑ i, x i) ^ 2) := by
  have e1 : ∀ i, (∑ j, (x i - x j) ^ 2)
      = (N : ℚ) * x i ^ 2 - 2 * x i * (∑ j, x j) + ∑ j, x j ^ 2 := by
    intro i
    have h : ∀ j, (x i - x j) ^ 2 = x i ^ 2 - 2 * x i * x j + x j ^ 2 :=
      fun j => by ring
    simp_rw [h]
    rw [Finset.sum_add_distrib, Finset.sum_sub_distrib, Finset.sum_const,
      Finset.card_univ, Fintype.card_fin, nsmul_eq_mul, ← Finset.mul_sum]
  simp_rw [e1]
  rw [Finset.sum_add_distrib, Finset.sum_sub_distrib, ← Finset.mul_sum,
    Finset.sum_const, Finset.card_univ, Fintype.card_fin, nsmul_eq_mul,
    ← Finset.sum_mul, ← Finset.mul_sum]
  ring

theorem det_vander_pos {N : ℕ} (x : Fin N → ℚ) (i j : Fin N)
    (hij : x i ≠ x j) :
    0 < (∑ i, x i ^ 2) * N - (∑ i, x i) ^ 2 := by
  have key := double_sum_sq x
  have hterm : (0 : ℚ) < (x i - x j) ^ 2 := by
    have hne : x i - x j ≠ 0 := sub_ne_zero.mpr hij
    positivity
  have h1 : (0 : ℚ) < ∑ b, (x i - x b) ^ 2 :=
    lt_of_lt_of_le hterm
      (@Finset.single_le_sum (Fin N) ℚ _ (fun b => (x i - x b) ^ 2) _
        (fun b _ => sq_nonneg _) j (Finset.mem_univ j))
  have h2 : (0 : ℚ) < ∑ a, ∑ b, (x a - x b) ^ 2 :=
    lt_of_lt_of_le h1
      (@Finset.single_le_sum (Fin N) ℚ _ (fun a => ∑ b, (x a - x b) ^ 2) _
        (fun a _ => Finset.sum_nonneg (fun b _ => sq_nonneg _)) i
        (Finset.mem_univ i))
  linarith

theorem vander_mulVec_line {N : ℕ} (x : Fin N → ℚ) (m c : ℚ) :
    (npVander x 2).mulVec ![m, c] = fun i => m * x i + c := by
  funext i
  rw [Matrix.mulVec, Matrix.dotProduct, Fin.sum_univ_two]
  simp [npVander, Matrix.of_apply, Fin.val_zero, Fin.val_one]
  ring

theorem fit_beta_exact_desc {N : ℕ} (x : Fin N → ℚ) (m c : ℚ)
    (h : ((npVander x 2).transpose * npVander x 2).det ≠ 0) :
    (matInv ((npVander x 2).transpose * npVander x 2)
        * (npVander x 2).transpose).mulVec (fun i => m * x i + c)
      = ![m, c] := by
  rw [← vander_mulVec_line x m c]
  rw [Matrix.mulVec_mulVec, Matrix.mul_assoc, matInv_mul _ h,
    Matrix.one_mulVec]

theorem vanderInc_mulVec_line {N : ℕ} (x : Fin N → ℚ) (m c : ℚ) :
    (npVanderInc x 2).mulVec ![c, m] = fun i => m * x i + c := by
  funext i
  rw [Matrix.mulVec, Matrix.dotProduct, Fin.sum_univ_two]
  simp [npVanderInc, Matrix.of_apply, Fin.val_zero, Fin.val_one]
  ring

theorem fit_beta_exact_inc {N : ℕ} (x : Fin N → ℚ) (m c : ℚ)
    (h : ((npVanderInc x 2).transpose * npVanderInc x 2).det ≠ 0) :
    (matInv ((npVanderInc x 2).transpose * npVanderInc x 2)).mulVec
        ((npVanderInc x 2).transpose.mulVec (fun i => m * x i + c))
      = ![c, m] := by
  rw [← vanderInc_mulVec_line x m c]
  rw [Matrix.mulVec_mulVec, Matrix.mulVec_mulVec, Matrix.mul_assoc,
    matInv_mul _ h, Matrix.one_mulVec]

theorem det_vanderIncT_mul_vanderInc {N : ℕ} (x : Fin N → ℚ) :
    ((npVanderInc x 2).transpose * npVanderInc x 2).det
      = (∑ i, x i ^ 2) * N - (∑ i, x i) ^ 2 := by
  rw [Matrix.det_fin_two]
  simp only [Matrix.mul_apply, Matrix.transpose_apply, npVanderInc,
    Matrix.of_apply, Fin.val_zero, Fin.val_one]
  norm_num
  simp_rw [← sq]
  ring

theorem getD_map_get (l : List ℚ) (f : ℚ → ℚ) (i : Fin l.length) :
    (l.map f).getD (i : ℕ) 0 = f (l.get i) := by
  have hlt : (i : ℕ) < (l.map f).length := by simp [i.isLt]
  rw [getD_eq_getElem _ _ hlt]
  simp

theorem ofFn_comp_get (l : List ℚ) (f : ℚ → ℚ) :
    List.ofFn (fun i : Fin l.length => f (l.get i)) = l.map f := by
  conv_rhs => rw [← List.ofFn_get l]
  rw [List.map_ofFn]
  rfl

theorem zip_replicate_same {α β : Type} (n : ℕ) (a : α) (b : β) :
    (List.replicate n a).zip (List.replicate n b) = List.replicate n (a, b) := by
  induction n with
  | zero => rfl
  | succ k ih => simp [List.replicate_succ, ih]

theorem zip_self_sub (l : List ℚ) :
    (l.zip l).map (fun vv => vv.1 - vv.2) = List.replicate l.length 0 := by
  induction l with
  | nil => rfl
  | cons a t ih => simp [List.replicate_succ, ih]

/-- `fitLineBeta` on data generated exactly from a line recovers
`(slope, intercept)` — in that order (decreasing-powers design matrix) —
whenever two sample x values differ. -/
theorem fitLineBeta_exact (xs : List ℚ) (m c : ℚ) (i j : Fin xs.length)
    (hne : xs.get i ≠ xs.get j) :
    fitLineBeta xs (xs.map (fun t => m * t + c)) = some (m, c) := by
  have hdet0 : ((npVander (fun k : Fin xs.length => xs.get k) 2).transpose
      * npVander (fun k : Fin xs.length => xs.get k) 2).det ≠ 0 := by
    rw [det_vanderT_mul_vander]
    exact ne_of_gt (det_vander_pos _ i j hne)
  rw [fitLineBeta]
  rw [npLinalgInv, if_neg (by rw [detFin_eq]; exact hdet0)]
  simp only [Option.map_some']
  have hy : (fun k : Fin xs.length =>
      (xs.map (fun t => m * t + c)).getD (k : ℕ) 0)
      = fun k => m * xs.get k + c := funext fun k => by rw [getD_map_get]
  rw [hy, fit_beta_exact_desc _ m c hdet0]
  simp

theorem getD_pair_fin2 (m c : ℚ) :
    (fun k : Fin 2 => ([m, c] : List ℚ).getD (k : ℕ) 0) = ![m, c] := by
  funext k
  fin_cases k <;> rfl

theorem model_pix_exact (wvl : List ℚ) (m c : ℚ) :
    List.ofFn ((npVander (fun i : Fin wvl.length => wvl.get i) (1 + 1)).mulVec
      (fun j : Fin (1 + 1) => ([m, c] : List ℚ).getD (j : ℕ) 0))
      = wvl.map (fun t => m * t + c) := by
  show List.ofFn ((npVander (fun i : Fin wvl.length => wvl.get i) 2).mulVec
      (fun j : Fin 2 => ([m, c] : List ℚ).getD (j : ℕ) 0)) = _
  rw [getD_pair_fin2, vander_mulVec_line]
  exact ofFn_comp_get wvl (fun t => m * t + c)

/-- `polyfit_cube` of order 1 on a cube whose every pixel is the exact line
`m·x + c` over the shared wavelengths: coefficients `[m, c]` (slope first),
model equal to the data, residuals all zero. -/
theorem polyfit_cube_exact (wvl : List ℚ) (m c : ℚ) (I J : ℕ)
    (i j : Fin wvl.length) (hne : wvl.get i ≠ wvl.get j) :
    polyfit_cube
        (List.replicate I (List.replicate J (wvl.map (fun t => m * t + c)))) wvl 1
      = some ⟨wvl,
          List.replicate I (List.replicate J (wvl.map (fun t => m * t + c))),
          List.replicate I (List.replicate J (wvl.map (fun t => m * t + c))),
          List.replicate I (List.replicate J [m, c]),
          List.replicate I (List.replicate J (List.replicate wvl.length 0))⟩ := by
  have hdet0 : ((npVander (fun k : Fin wvl.length => wvl.get k) 2).transpose
      * npVander (fun k : Fin wvl.length => wvl.get k) 2).det ≠ 0 := by
    rw [det_vanderT_mul_vander]
    exact ne_of_gt (det_vander_pos _ i j hne)
  have hy : (fun k : Fin wvl.length =>
      (wvl.map (fun t => m * t + c)).getD (k : ℕ) 0)
      = fun k => m * wvl.get k + c := funext fun k => by rw [getD_map_get]
  rw [polyfit_cube]
  rw [npLinalgInv, if_neg (by rw [detFin_eq]; exact hdet0)]
  simp only [Option.map_some', Option.some.injEq]
  simp only [List.map_replicate, hy, fit_beta_exact_desc _ m c hdet0,
    zip_replicate_same]
  have hofn : List.ofFn ![m, c] = [m, c] := by simp
  rw [hofn]
  simp only [model_pix_exact, zip_replicate_same, List.map_replicate,
    zip_self_sub, List.length_map]

theorem vanderInc_apply_line (wvl : List ℚ) (m c : ℚ) (k : Fin wvl.length) :
    (npVanderInc (fun i : Fin wvl.length => wvl.get i) (1 + 1)).mulVec ![c, m] k
      = m * wvl.get k + c := by
  show (npVanderInc (fun i : Fin wvl.length => wvl.get i) 2).mulVec ![c, m] k = _
  exact congrFun (vanderInc_mulVec_line _ m c) k

theorem model_single_exact (wvl : List ℚ) (m c : ℚ) :
    List.ofFn ((npVanderInc (fun i : Fin wvl.length => wvl.get i) (1 + 1)).mulVec
      ![c, m]) = wvl.map (fun t => m * t + c) := by
  show List.ofFn ((npVanderInc (fun i : Fin wvl.length => wvl.get i) 2).mulVec
      ![c, m]) = _
  rw [vanderInc_mulVec_line]
  exact ofFn_comp_get wvl (fun t => m * t + c)

/-- `polyfit_single` of order 1 on the exact line `m·x + c`: coefficients
`[c, m]` (intercept first, increasing-powers design matrix), zero
residuals. -/
theorem polyfit_single_exact (wvl : List ℚ) (m c : ℚ)
    (i j : Fin wvl.length) (hne : wvl.get i ≠ wvl.get j) :
    polyfit_single (wvl.map (fun t => m * t + c)) wvl 1
      = some ⟨wvl, wvl.map (fun t => m * t + c), wvl.map (fun t => m * t + c),
          [c, m], List.replicate wvl.length 0⟩ := by
  have hdet0 : ((npVanderInc (fun k : Fin wvl.length => wvl.get k) 2).transpose
      * npVanderInc (fun k : Fin wvl.length => wvl.get k) 2).det ≠ 0 := by
    rw [det_vanderIncT_mul_vanderInc]
    exact ne_of_gt (det_vander_pos _ i j hne)
  have hy : (fun k : Fin wvl.length =>
      (wvl.map (fun t => m * t + c)).getD (k : ℕ) 0)
      = fun k => m * wvl.get k + c := funext fun k => by rw [getD_map_get]
  rw [polyfit_single]
  rw [npLinalgInv, if_neg (by rw [detFin_eq]; exact hdet0)]
  simp only [Option.map_some', Option.some.injEq]
  simp only [hy, fit_beta_exact_inc _ m c hdet0, model_single_exact,
    getD_map_get, vanderInc_apply_line, sub_self, List.ofFn_const]
  simp

/-- C4 (amended): fitting an order-1 polynomial to data generated exactly
from the line `y = m·x + c` (with `m ≠ 0` and at least two distinct x
values) recovers the line with zero residuals and r² = 1 in both fitters,
but the coefficient orders differ: the batched cube fitter returns
`[m, c]` — slope first, from `np.vander`'s default decreasing powers —
while the single-spectrum fitter returns `[c, m]` (intercept first,
`increasing=True`).  (`m ≠ 0` excludes the constant-data case, where the
float code's r² denominator is zero and the result is NaN, not 1.) -/
theorem C4_fit_round_trip (wvl : List ℚ) (m c : ℚ) (I J : ℕ) (hm : m ≠ 0)
    (i j : Fin wvl.length) (hne : wvl.get i ≠ wvl.get j) :
    (∃ fr, polyfit_cube (List.replicate I (List.replicate J
          (wvl.map (fun t => m * t + c)))) wvl 1 = some fr ∧
        fr.beta = List.replicate I (List.replicate J [m, c]) ∧
        fr.res = List.replicate I (List.replicate J (List.replicate wvl.length 0)) ∧
        fr.r_squared = List.replicate I (List.replicate J 1)) ∧
    (∃ sf, polyfit_single (wvl.map (fun t => m * t + c)) wvl 1 = some sf ∧
        sf.beta = [c, m] ∧ sf.res = List.replicate wvl.length 0 ∧
        sf.r_squared = 1) := by
  constructor
  · refine ⟨_, polyfit_cube_exact wvl m c I J i j hne, rfl, rfl, ?_⟩
    simp [CubeFitResult.r_squared, List.map_replicate, List.sum_replicate]
  · refine ⟨_, polyfit_single_exact wvl m c i j hne, rfl, rfl, ?_⟩
    simp [SingleFitResult.r_squared, List.map_replicate, List.sum_replicate]

/-- C4 (counterexample to the claim as stated): fitting `y = 2x + 3` at
x = [0, 1] (data `[3, 5]`), the batched cube fitter returns `[2, 3]` —
slope first — not the claimed `[3, 2]`; the single-spectrum fitter
returns `[3, 2]`. -/
theorem C4_coefficient_order_counterexample :
    (polyfit_cube [[[3, 5]]] [0, 1] 1).map (fun fr => fr.beta)
        = some [[[2, 3]]] ∧
      (polyfit_single [3, 5] [0, 1] 1).map (fun sf => sf.beta) = some [3, 2] ∧
      ([[[2, 3]]] : List (List (List ℚ))) ≠ [[[3, 2]]] := by
  refine ⟨?_, ?_, by norm_num⟩ <;>
  · simp only [polyfit_cube, polyfit_single, npVander, npVanderInc, npLinalgInv,
      matInv, detFin, adjugateFin, List.length_cons, List.length_nil]
    norm_num [Matrix.mul_apply, Matrix.mulVec, Matrix.dotProduct, Fin.sum_univ_succ,
      Matrix.transpose_apply, Matrix.of_apply, List.finRange_succ, List.finRange_zero,
      Matrix.submatrix_apply, Fin.succAbove, List.ofFn_succ, List.getD,
      List.getElem?_cons_zero, List.getElem?_cons_succ]

/-- Witness for `C4_fit_round_trip`: the line `y = 2x + 3` over x = [0, 1]
on a 1×1 cube. -/
theorem C4_fit_round_trip_witness :
    (∃ fr, polyfit_cube (List.replicate 1 (List.replicate 1
          (([0, 1] : List ℚ).map (fun t => 2 * t + 3)))) [0, 1] 1 = some fr ∧
        fr.beta = List.replicate 1 (List.replicate 1 [2, 3]) ∧
        fr.res = List.replicate 1 (List.replicate 1
          (List.replicate ([0, 1] : List ℚ).length 0)) ∧
        fr.r_squared = List.replicate 1 (List.replicate 1 1)) ∧
    (∃ sf, polyfit_single (([0, 1] : List ℚ).map (fun t => 2 * t + 3)) [0, 1] 1
          = some sf ∧
        sf.beta = [3, 2] ∧ sf.res = List.replicate ([0, 1] : List ℚ).length 0 ∧
        sf.r_squared = 1) :=
  C4_fit_round_trip [0, 1] 2 3 1 1 (by norm_num) ⟨0, by norm_num⟩
    ⟨1, by norm_num⟩ (by norm_num [List.get])

theorem mapM_eq_none_of_mem {α β : Type} (f : α → Option β) (l : List α)
    (a : α) (ha : a ∈ l) (hf : f a = none) : l.mapM f = none := by
  induction l with
  | nil => exact absurd ha (List.not_mem_nil a)
  | cons b bs ih =>
    rw [List.mapM_cons]
    rcases List.mem_cons.mp ha with rfl | hmem
    · rw [hf]; rfl
    · cases hb : f b with
      | none => rfl
      | some v =>
        simp only [List.mapM_cons, hb, Option.some_bind, ih hmem,
          Option.none_bind]
        rfl

/-- C5 (amended): a singular `XᵗX` (or `GᵗG`) does **not** degrade into
per-pixel NaN coefficients with the rest of the batch surviving — it
aborts the whole call, because `np.linalg.inv` raises `LinAlgError`:
for the per-pixel-design-matrix batch fit, one singular pixel makes the
batched inversion raise and no pixel's coefficients are produced; for the
shared-design-matrix cube fit, a singular shared `XᵗX` aborts the call;
and a whole-spectrum single fit with zero least-squares denominator
raises a `ValueError`. -/
theorem C5_singular_pixel_aborts_batch :
    (∀ (N M : ℕ) (G : List (List (Matrix (Fin N) (Fin M) ℚ)))
        (d : List (List (Fin N → ℚ))) (row : List (Matrix (Fin N) (Fin M) ℚ))
        (g : Matrix (Fin N) (Fin M) ℚ), row ∈ G → g ∈ row →
        (g.transpose * g).det = 0 → fit_cube_varX G d = none) ∧
    (∀ (cube : Cube) (wvl : List ℚ) (order : ℕ),
        ((npVander (fun i : Fin wvl.length => wvl.get i) (order + 1)).transpose
          * npVander (fun i : Fin wvl.length => wvl.get i) (order + 1)).det = 0 →
        polyfit_cube cube wvl order = none) ∧
    (∀ x y : List ℚ,
        (x.length : ℚ) * (x.map (fun v => v * v)).sum - x.sum ^ 2 = 0 →
        fit_single_line x y = none) := by
  refine ⟨?_, ?_, ?_⟩
  · intro N M G d row g hrow hg hdet
    rw [fit_cube_varX]
    rw [mapM_eq_none_of_mem _ G row hrow]
    · rfl
    · exact mapM_eq_none_of_mem _ row g hg
        (by rw [npLinalgInv, if_pos (by rw [detFin_eq]; exact hdet)])
  · intro cube wvl order hdet
    rw [polyfit_cube, npLinalgInv, if_pos (by rw [detFin_eq]; exact hdet)]
    rfl
  · intro x y h
    rw [fit_single_line, if_pos h]

/-- C5 (counterexample to the claim as stated): a 1×2-pixel batch where
pixel 0's design matrix has singular `GᵗG` and pixel 1's is nonsingular:
the batch returns no coefficients at all (`none`, modelling the raised
`LinAlgError`) — pixel 1's coefficients are not computed, contradicting
"every other pixel's coefficients are still computed and the affected
pixel's coefficients become NaN". -/
theorem C5_batch_abort_counterexample :
    fit_cube_varX
        [[Matrix.of ![![(1 : ℚ), 1], ![1, 1]], Matrix.of ![![(0 : ℚ), 1], ![1, 1]]]]
        [[![1, 2], ![3, 4]]] = none ∧
      ((Matrix.of ![![(0 : ℚ), 1], ![1, 1]]).transpose
          * Matrix.of ![![(0 : ℚ), 1], ![1, 1]]).det ≠ 0 := by
  constructor
  · rw [fit_cube_varX]
    rw [mapM_eq_none_of_mem _ _ [Matrix.of ![![(1 : ℚ), 1], ![1, 1]],
        Matrix.of ![![(0 : ℚ), 1], ![1, 1]]] (List.mem_cons_self _ _)]
    · rfl
    · apply mapM_eq_none_of_mem _ _ (Matrix.of ![![(1 : ℚ), 1], ![1, 1]])
        (List.mem_cons_self _ _)
      rw [npLinalgInv, if_pos]
      rw [detFin_eq, Matrix.det_fin_two]
      norm_num [Matrix.mul_apply, Matrix.transpose_apply, Fin.sum_univ_succ]
  · rw [Matrix.det_fin_two]
    norm_num [Matrix.mul_apply, Matrix.transpose_apply, Fin.sum_univ_succ]

/-- Witness for `C5_singular_pixel_aborts_batch` on the concrete singular
batch, a zero-sample shared fit, and the two-equal-points single fit. -/
theorem C5_singular_pixel_witness :
    fit_cube_varX
        [[Matrix.of ![![(1 : ℚ), 1], ![1, 1]], Matrix.of ![![(0 : ℚ), 1], ![1, 1]]]]
        [[![1, 2], ![3, 4]]] = none ∧
      polyfit_cube [[[1]]] ([] : List ℚ) 0 = none ∧
      fit_single_line [1, 1] [0, 0] = none := by
  refine ⟨C5_singular_pixel_aborts_batch.1 2 2 _ _ _
      (Matrix.of ![![(1 : ℚ), 1], ![1, 1]])
      (List.mem_cons_self _ _) (List.mem_cons_self _ _) ?_,
    C5_singular_pixel_aborts_batch.2.1 [[[1]]] [] 0 ?_,
    C5_singular_pixel_aborts_batch.2.2 [1, 1] [0, 0] ?_⟩
  · rw [Matrix.det_fin_two]
    norm_num [Matrix.mul_apply, Matrix.transpose_apply, Fin.sum_univ_succ]
  · rw [Matrix.det_fin_one]
    simp [Matrix.mul_apply, npVander]
  · norm_num

/-- C7 (amended): the orchestrator's re-entry short-circuit holds only for
the requested stage's **exact** target state: `noise_reduction` is a no-op
when the flag is exactly `FILTERED`, and `continuum_removal` when it is
exactly `CONTINUUM_REMOVED`; but calling `noise_reduction` on an already
`CONTINUUM_REMOVED` cube re-runs outlier removal and filtering and
regresses the flag to `FILTERED`. -/
theorem C7_stage_reentry (s : Spec3DState) (m : FilterMethod) (w : ℕ)
    (mc : ContinuumMethod) :
    (s.flag = ProcessingFlag.FILTERED → noise_reduction s m w = some s) ∧
    (s.flag = ProcessingFlag.CONTINUUM_REMOVED →
      continuum_removal s mc = some s) ∧
    (s.flag = ProcessingFlag.CONTINUUM_REMOVED →
      ∀ s', noise_reduction s m w = some s' →
        s'.flag = ProcessingFlag.FILTERED) := by
  refine ⟨?_, ?_, ?_⟩
  · intro h
    rw [noise_reduction, if_pos h]
  · intro h
    rw [continuum_removal, if_pos h]
  · intro h s' hs'
    rw [noise_reduction, if_neg (by rw [h]; exact fun hc => by cases hc)] at hs'
    rcases Option.bind_eq_some.mp hs' with ⟨s1, _, h2⟩
    rcases Option.map_eq_some'.mp h2 with ⟨s2, _, h4⟩
    rw [← h4]

theorem fitLineBeta_const012 : fitLineBeta [0, 1, 2] [1, 1, 1] = some (0, 1) := by
  have h := fitLineBeta_exact [0, 1, 2] 0 1 ⟨0, by norm_num⟩ ⟨1, by norm_num⟩
    (by norm_num [List.get])
  norm_num at h
  exact h

theorem fitLineBeta_const56 : fitLineBeta [5, 6] [1, 1] = some (0, 1) := by
  have h := fitLineBeta_exact [5, 6] 0 1 ⟨0, by norm_num⟩ ⟨1, by norm_num⟩
    (by norm_num [List.get])
  norm_num at h
  exact h

theorem box_filter_ones :
    box_filter_pixel [1, 1, 1, 1, 1, 1, 1] 3
      = some ([1, 1, 1, 1, 1, 1, 1], [0, 0, 0, 0, 0, 0, 0]) := by
  have hla : left_arm [1, 1, 1, 1, 1, 1, 1] 3 = some [1, 1, 1] := by
    have h1 : ([1, 1, 1, 1, 1, 1, 1] : List ℚ).length = 7 := by norm_num
    rw [left_arm, h1, left_indices_7]
    norm_num [fitLineBeta_const012, List.range_succ, lineAt]
  have hra : right_arm [1, 1, 1, 1, 1, 1, 1] 3 = some [1, 1, 1] := by
    have h1 : ([1, 1, 1, 1, 1, 1, 1] : List ℚ).length = 7 := by norm_num
    rw [right_arm, h1, right_indices_7]
    norm_num [fitLineBeta_const56, List.range_succ, lineAt]
  rw [box_filter_pixel, hla, Option.some_bind, hra, Option.map_some']
  norm_num [boxConvAt, List.range_succ, List.getD, List.getElem?_cons_zero,
    List.getElem?_cons_succ]

theorem remove_outliers_ones :
    remove_outliers_pixel [1, 1, 1, 1, 1, 1, 1] (3 / 2)
      = some [1, 1, 1, 1, 1, 1, 1] := by
  rw [remove_outliers_pixel]
  rw [show (max (round_to_odd ((([1, 1, 1, 1, 1, 1, 1] :
      List ℚ).length : ℚ) * (1 / 10))).toNat 3) = 3 by
    norm_num [round_to_odd, pythonRound]]
  rw [box_filter_ones, Option.map_some']
  norm_num [neighborMean, List.range_succ, List.getD, List.getElem?_cons_zero,
    List.getElem?_cons_succ]

theorem remove_outliers_cube_ones :
    remove_outliers [[[1, 1, 1, 1, 1, 1, 1]]] (3 / 2)
      = some [[[1, 1, 1, 1, 1, 1, 1]]] := by
  rw [remove_outliers]
  simp only [List.mapM_cons, List.mapM_nil, remove_outliers_ones]
  rfl

theorem box_filter_cube_ones :
    box_filter_cube [[[1, 1, 1, 1, 1, 1, 1]]] 3
      = some ([[[1, 1, 1, 1, 1, 1, 1]]], [[[0, 0, 0, 0, 0, 0, 0]]]) := by
  rw [box_filter_cube]
  simp only [List.mapM_cons, List.mapM_nil, box_filter_ones]
  rfl

/-- C7 (counterexample to the claim as stated): a `Spec3D` whose flag is
already `CONTINUUM_REMOVED` is **not** left unchanged by
`noise_reduction` — the call re-runs outlier removal and the box filter
and regresses the flag to `FILTERED`. -/
theorem C7_reentry_counterexample :
    (noise_reduction
        { cube := [[[1, 1, 1, 1, 1, 1, 1]]],
          wavelength := ⟨[1, 2, 3, 4, 5, 6, 7], WvlUnit.nm⟩,
          flag := ProcessingFlag.CONTINUUM_REMOVED }
        FilterMethod.box_filter 3).map Spec3DState.flag
        = some ProcessingFlag.FILTERED ∧
      ProcessingFlag.FILTERED ≠ ProcessingFlag.CONTINUUM_REMOVED := by
  have hc1 : (Spec3DState.mk [[[1, 1, 1, 1, 1, 1, 1]]]
        ⟨[1, 2, 3, 4, 5, 6, 7], WvlUnit.nm⟩
        ProcessingFlag.CONTINUUM_REMOVED).cube
      = [[[1, 1, 1, 1, 1, 1, 1]]] := rfl
  refine ⟨?_, by intro hc; cases hc⟩
  rw [noise_reduction, if_neg (by intro hc; cases hc)]
  rw [if_pos (by intro hc; cases hc)]
  rw [outlier_removal, hc1]
  rw [remove_outliers_cube_ones, Option.map_some', Option.some_bind]
  rw [if_pos rfl]
  rw [box_filter_cube_ones, Option.map_some', Option.map_some']
  rfl

/-- Witness for `C7_stage_reentry` at concrete `FILTERED` and
`CONTINUUM_REMOVED` states. -/
theorem C7_stage_reentry_witness :
    noise_reduction (Spec3DState.mk [[[1]]] ⟨[1], WvlUnit.nm⟩
        ProcessingFlag.FILTERED) FilterMethod.box_filter 3
      = some (Spec3DState.mk [[[1]]] ⟨[1], WvlUnit.nm⟩
        ProcessingFlag.FILTERED) ∧
    continuum_removal (Spec3DState.mk [[[1]]] ⟨[1], WvlUnit.nm⟩
        ProcessingFlag.CONTINUUM_REMOVED) ContinuumMethod.double_line
      = some (Spec3DState.mk [[[1]]] ⟨[1], WvlUnit.nm⟩
        ProcessingFlag.CONTINUUM_REMOVED) ∧
    (∀ s', noise_reduction (Spec3DState.mk [[[1]]] ⟨[1], WvlUnit.nm⟩
        ProcessingFlag.CONTINUUM_REMOVED) FilterMethod.box_filter 3 = some s' →
      s'.flag = ProcessingFlag.FILTERED) :=
  ⟨(C7_stage_reentry _ FilterMethod.box_filter 3 ContinuumMethod.double_line).1 rfl,
   (C7_stage_reentry _ FilterMethod.box_filter 3 ContinuumMethod.double_line).2.1 rfl,
   (C7_stage_reentry _ FilterMethod.box_filter 3 ContinuumMethod.double_line).2.2 rfl⟩

theorem left_indices_24 : left_indices 24 = [0, 1, 2] := by
  norm_num [left_indices, edge_length, pythonRound, List.range_succ]
  rfl

theorem spec_edge_count_24 : spec_edge_count 24 = 4 := by
  rw [spec_edge_count]
  rw [show ((24 : ℕ) : ℚ) * (1 / 10) ⊔ 2 = 12 / 5 by norm_num]
  rw [show ⌈(12 : ℚ) / 5⌉ = 3 by
    rw [Int.ceil_eq_iff]
    norm_num]
  rfl

theorem fitLineBeta_zeros012 : fitLineBeta [0, 1, 2] [0, 0, 0] = some (0, 0) := by
  have h := fitLineBeta_exact [0, 1, 2] 0 0 ⟨0, by norm_num⟩ ⟨1, by norm_num⟩
    (by norm_num [List.get])
  norm_num at h
  exact h

theorem fitLineBeta_spec_samples :
    fitLineBeta [0, 1, 2, 3] [0, 0, 0, 12] = some (18/5, -12/5) := by
  simp only [fitLineBeta, npVander, npLinalgInv, matInv, detFin, adjugateFin,
    List.length_cons, List.length_nil]
  norm_num [Matrix.mul_apply, Matrix.mulVec, Matrix.dotProduct, Fin.sum_univ_succ,
    Matrix.transpose_apply, Matrix.of_apply, List.finRange_succ, List.finRange_zero,
    Matrix.submatrix_apply, Fin.succAbove]

/-- C8 (counterexample to the claim as stated): for a 24-band spectrum the
spec's edge-fit count is `⌈max(2.4, 2)⌉ + 1 = 4` samples, but the code
fits over `round(2.4)` clamped to ≥ 2, plus one = 3 samples.  On the
spectrum that is zero except for value 12 at index 3, the code's left arm
(window 1) is `[0]` (the 4th sample never enters the fit) while the
spec-described fit over the first four samples gives `[-6]`. -/
theorem C8_edge_sample_count_counterexample :
    left_arm [0, 0, 0, 12, 0, 0, 0, 0, 0, 0, 0, 0, 0, 0, 0, 0, 0, 0, 0, 0,
        0, 0, 0, 0] 1 = some [0] ∧
      spec_left_arm [0, 0, 0, 12, 0, 0, 0, 0, 0, 0, 0, 0, 0, 0, 0, 0, 0, 0,
        0, 0, 0, 0, 0, 0] 1 = some [-6] ∧
      some [(0 : ℚ)] ≠ some [(-6 : ℚ)] := by
  have hlen : ([0, 0, 0, 12, 0, 0, 0, 0, 0, 0, 0, 0, 0, 0, 0, 0, 0, 0, 0, 0,
      0, 0, 0, 0] : List ℚ).length = 24 := by norm_num
  refine ⟨?_, ?_, by norm_num⟩
  · rw [left_arm, hlen, left_indices_24]
    norm_num [fitLineBeta_zeros012, List.range_succ, lineAt]
  · rw [spec_left_arm, hlen, spec_edge_count_24]
    norm_num [List.range_succ, fitLineBeta_spec_samples, lineAt]

/-- C8 (amended): the box filter's synthetic arms are degree-1 fits over
the first `edge_length + 1` (left) and last `edge_length` (right) real
samples, where `edge_length = max(round(0.1·N), 2)` uses Python's
round-half-even — not the spec's `⌈max(0.1·N, 2)⌉ + 1` at both ends.
The arms depend only on those samples; when the left-end samples lie
exactly on a line, the left arm is that line evaluated at the
extrapolated indices `-W .. -1`. -/
theorem C8_edge_fit_window (W : ℕ) :
    (∀ y1 y2 : List ℚ, y1.length = y2.length →
      (∀ i ∈ left_indices y1.length, y1.getD i 0 = y2.getD i 0) →
      left_arm y1 W = left_arm y2 W) ∧
    (∀ y1 y2 : List ℚ, y1.length = y2.length →
      (∀ i ∈ right_indices y1.length, y1.getD i 0 = y2.getD i 0) →
      right_arm y1 W = right_arm y2 W) ∧
    (∀ (y : List ℚ) (m c : ℚ),
      (∀ i ∈ left_indices y.length, y.getD i 0 = m * (i : ℚ) + c) →
      left_arm y W
        = some ((List.range W).map (fun k => m * ((k : ℚ) - (W : ℚ)) + c))) ∧
    (∀ n : ℕ, (left_indices n).length = edge_length n + 1 ∧
      (right_indices n).length = edge_length n) := by
  refine ⟨?_, ?_, ?_, ?_⟩
  · intro y1 y2 hlen hagree
    rw [left_arm, left_arm, ← hlen]
    rw [List.map_congr_left hagree]
  · intro y1 y2 hlen hagree
    rw [right_arm, right_arm, ← hlen]
    rw [List.map_congr_left hagree]
  · intro y m c hline
    have hxs : (left_indices y.length).map (fun i => y.getD i 0)
        = ((left_indices y.length).map (fun i : ℕ => (i : ℚ))).map
            (fun t => m * t + c) := by
      rw [List.map_map]
      exact List.map_congr_left (fun i hi => by rw [hline i hi]; rfl)
    have hlen3 : 3 ≤ ((left_indices y.length).map (fun i : ℕ => (i : ℚ))).length := by
      simp only [List.length_map, left_indices, List.length_range]
      have := Nat.le_max_right (pythonRound ((y.length : ℚ) * (1/10))).toNat 2
      rw [edge_length]
      omega
    have h0 : (0 : ℕ) < ((left_indices y.length).map (fun i : ℕ => (i : ℚ))).length := by
      omega
    have h1 : (1 : ℕ) < ((left_indices y.length).map (fun i : ℕ => (i : ℚ))).length := by
      omega
    have hne : ((left_indices y.length).map (fun i : ℕ => (i : ℚ))).get ⟨0, h0⟩
        ≠ ((left_indices y.length).map (fun i : ℕ => (i : ℚ))).get ⟨1, h1⟩ := by
      simp only [List.get_eq_getElem, List.getElem_map, left_indices,
        List.getElem_range]
      norm_num
    rw [left_arm, hxs, fitLineBeta_exact _ m c ⟨0, h0⟩ ⟨1, h1⟩ hne]
    simp [lineAt]
  · intro n
    constructor
    · simp [left_indices, Nat.add_comm]
    · simp [right_indices]

/-- Witness for `C8_edge_fit_window` on 5-band spectra (edge length 2,
left window `[0, 1, 2]`, right window `[3, 4]`). -/
theorem C8_edge_fit_window_witness :
    left_arm [7, 7, 7, 1, 2] 1 = left_arm [7, 7, 7, 3, 4] 1 ∧
      right_arm [1, 2, 3, 7, 7] 1 = right_arm [4, 5, 6, 7, 7] 1 ∧
      left_arm [7, 7, 7, 1, 2] 1
        = some ((List.range 1).map (fun k => 0 * ((k : ℚ) - (1 : ℚ)) + 7)) ∧
      (left_indices 5).length = edge_length 5 + 1 ∧
      (right_indices 5).length = edge_length 5 := by
  have he5 : edge_length 5 = 2 := by norm_num [edge_length, pythonRound]
  have hli : left_indices 5 = [0, 1, 2] := by
    rw [left_indices, he5]
    rfl
  have hri : right_indices 5 = [3, 4] := by
    rw [right_indices, he5]
    rfl
  refine ⟨?_, ?_, ?_, (C8_edge_fit_window 1).2.2.2 5⟩
  · refine (C8_edge_fit_window 1).1 [7, 7, 7, 1, 2] [7, 7, 7, 3, 4]
      (by norm_num) ?_
    intro i hi
    rw [show (([7, 7, 7, 1, 2] : List ℚ).length) = 5 by norm_num, hli] at hi
    simp only [List.mem_cons, List.not_mem_nil, or_false] at hi
    rcases hi with rfl | rfl | rfl <;> rfl
  · refine (C8_edge_fit_window 1).2.1 [1, 2, 3, 7, 7] [4, 5, 6, 7, 7]
      (by norm_num) ?_
    intro i hi
    rw [show (([1, 2, 3, 7, 7] : List ℚ).length) = 5 by norm_num, hri] at hi
    simp only [List.mem_cons, List.not_mem_nil, or_false] at hi
    rcases hi with rfl | rfl <;> rfl
  · refine (C8_edge_fit_window 1).2.2.1 [7, 7, 7, 1, 2] 0 7 ?_
    intro i hi
    rw [show (([7, 7, 7, 1, 2] : List ℚ).length) = 5 by norm_num, hli] at hi
    simp only [List.mem_cons, List.not_mem_nil, or_false] at hi
    rcases hi with rfl | rfl | rfl <;> norm_num

theorem outlier_removal_wavelength (s t : Spec3DState) (sigma : ℚ)
    (h : outlier_removal s sigma = some t) : t.wavelength = s.wavelength := by
  rw [outlier_removal] at h
  rcases Option.map_eq_some'.mp h with ⟨c, _, h2⟩
  rw [← h2]

theorem noise_reduction_wavelength (s t : Spec3DState) (m : FilterMethod)
    (w : ℕ) (h : noise_reduction s m w = some t) :
    t.wavelength = s.wavelength := by
  rw [noise_reduction] at h
  by_cases hf : s.flag = ProcessingFlag.FILTERED
  · rw [if_pos hf] at h
    cases h
    rfl
  · rw [if_neg hf] at h
    rcases Option.bind_eq_some.mp h with ⟨s1, h1, h2⟩
    rcases Option.map_eq_some'.mp h2 with ⟨s2, h3, h4⟩
    have hw1 : s1.wavelength = s.wavelength := by
      by_cases ho : s.flag ≠ ProcessingFlag.OUTLIERS_REMOVED
      · rw [if_pos ho] at h1
        exact outlier_removal_wavelength s s1 (3 / 2) h1
      · rw [if_neg ho] at h1
        cases h1
        rfl
    have hw2 : s2.wavelength = s1.wavelength := by
      by_cases hb : m = FilterMethod.box_filter
      · rw [if_pos hb] at h3
        rcases Option.map_eq_some'.mp h3 with ⟨mc, _, h5⟩
        rw [← h5]
      · rw [if_neg hb] at h3
        cases h3
        rfl
    rw [← h4, ← hw1, ← hw2]

theorem continuum_removal_wavelength (s t : Spec3DState)
    (m : ContinuumMethod) (h : continuum_removal s m = some t) :
    t.wavelength = s.wavelength := by
  rw [continuum_removal] at h
  by_cases hf : s.flag = ProcessingFlag.CONTINUUM_REMOVED
  · rw [if_pos hf] at h
    cases h
    rfl
  · rw [if_neg hf] at h
    rcases Option.map_eq_some'.mp h with ⟨s1, h1, h2⟩
    have hw1 : s1.wavelength = s.wavelength := by
      by_cases ho : s.flag ≠ ProcessingFlag.FILTERED
      · rw [if_pos ho] at h1
        exact noise_reduction_wavelength s s1 _ 7 h1
      · rw [if_neg ho] at h1
        cases h1
        rfl
    rw [← h2, ← hw1]
    by_cases hd : m = ContinuumMethod.double_line
    · rw [if_pos hd]
    · rw [if_neg hd]

theorem runOp_wavelength (s t : Spec3DState) (op : PipelineOp)
    (h : runOp s op = some t) : t.wavelength = s.wavelength := by
  cases op with
  | outlierRemoval sigma => exact outlier_removal_wavelength s t sigma h
  | noiseReduction m w => exact noise_reduction_wavelength s t m w h
  | continuumRemoval m => exact continuum_removal_wavelength s t m h

/-- C10: `Spec3D.__init__` stores `Wavelength(wvl_arr, "nm")` regardless of the
`unit` argument, every pipeline stage preserves the stored wavelength object,
`fit_absorption` on continuum-removed data raises `WavelengthUnitError` whenever
the requested unit differs from the stored one, and `make_m3_rgb` (which calls
`fit_absorption` with `unit="um"`) therefore always fails with
`WavelengthUnitError` on a continuum-removed nm-unit state. -/
theorem C10_wavelength_unit_forced_nm :
    (∀ (cube : Cube) (wvl : List ℚ) (u : WvlUnit),
      (mkSpec3D cube wvl u).wavelength = ⟨wvl, WvlUnit.nm⟩) ∧
    (∀ (ops : List PipelineOp) (s s' : Spec3DState),
      runOps ops s = some s' → s'.wavelength = s.wavelength) ∧
    (∀ (s : Spec3DState) (lo hi : ℚ) (u : WvlUnit),
      s.flag = ProcessingFlag.CONTINUUM_REMOVED → u ≠ s.wavelength.unit →
      fit_absorption s lo hi u
        = Except.error PipelineError.wavelengthUnitError) ∧
    (∀ s : Spec3DState, s.wavelength.unit = WvlUnit.nm →
      s.flag = ProcessingFlag.CONTINUUM_REMOVED →
      make_m3_rgb s = Except.error PipelineError.wavelengthUnitError) := by
  have habs : ∀ (s : Spec3DState) (lo hi : ℚ) (u : WvlUnit),
      s.flag = ProcessingFlag.CONTINUUM_REMOVED → u ≠ s.wavelength.unit →
      fit_absorption s lo hi u
        = Except.error PipelineError.wavelengthUnitError := by
    intro s lo hi u hf hu
    rw [fit_absorption, if_neg (by rw [hf]; exact fun hc => hc rfl)]
    rw [absorptionFeature3D, if_pos hu]
  refine ⟨fun _ _ _ => rfl, ?_, habs, ?_⟩
  · intro ops
    induction ops with
    | nil =>
      intro s s' h
      cases h
      rfl
    | cons op rest ih =>
      intro s s' h
      rcases Option.bind_eq_some.mp h with ⟨s1, h1, h2⟩
      rw [ih s1 s' h2, runOp_wavelength s s1 op h1]
  · intro s hnm hf
    rw [make_m3_rgb, if_neg (by rw [hf]; exact fun hc => hc rfl)]
    rw [show fit_absorption s (789 / 1000) (1309 / 1000) WvlUnit.um
        = Except.error PipelineError.wavelengthUnitError from
      habs s _ _ WvlUnit.um hf (by rw [hnm]; exact fun hc => by cases hc)]
    rfl

theorem C10_wavelength_unit_witness :
    (mkSpec3D [[[1]]] [5] WvlUnit.um).wavelength = ⟨[5], WvlUnit.nm⟩ ∧
    runOps [PipelineOp.outlierRemoval (3 / 2)]
        (Spec3DState.mk [[[1, 1, 1, 1, 1, 1, 1]]]
          ⟨[1, 2, 3, 4, 5, 6, 7], WvlUnit.nm⟩ ProcessingFlag.RAW)
      = some (Spec3DState.mk [[[1, 1, 1, 1, 1, 1, 1]]]
          ⟨[1, 2, 3, 4, 5, 6, 7], WvlUnit.nm⟩
          ProcessingFlag.OUTLIERS_REMOVED) ∧
    (Spec3DState.mk [[[1, 1, 1, 1, 1, 1, 1]]]
        ⟨[1, 2, 3, 4, 5, 6, 7], WvlUnit.nm⟩
        ProcessingFlag.OUTLIERS_REMOVED).wavelength
      = (Spec3DState.mk [[[1, 1, 1, 1, 1, 1, 1]]]
        ⟨[1, 2, 3, 4, 5, 6, 7], WvlUnit.nm⟩ ProcessingFlag.RAW).wavelength ∧
    fit_absorption (Spec3DState.mk [[[1]]] ⟨[5], WvlUnit.nm⟩
        ProcessingFlag.CONTINUUM_REMOVED) 1 2 WvlUnit.um
      = Except.error PipelineError.wavelengthUnitError ∧
    make_m3_rgb (Spec3DState.mk [[[1]]] ⟨[5], WvlUnit.nm⟩
        ProcessingFlag.CONTINUUM_REMOVED)
      = Except.error PipelineError.wavelengthUnitError := by
  have hrun : runOps [PipelineOp.outlierRemoval (3 / 2)]
      (Spec3DState.mk [[[1, 1, 1, 1, 1, 1, 1]]]
        ⟨[1, 2, 3, 4, 5, 6, 7], WvlUnit.nm⟩ ProcessingFlag.RAW)
      = some (Spec3DState.mk [[[1, 1, 1, 1, 1, 1, 1]]]
        ⟨[1, 2, 3, 4, 5, 6, 7], WvlUnit.nm⟩
        ProcessingFlag.OUTLIERS_REMOVED) := by
    rw [runOps, runOp, outlier_removal]
    rw [show (Spec3DState.mk [[[1, 1, 1, 1, 1, 1, 1]]]
        ⟨[1, 2, 3, 4, 5, 6, 7], WvlUnit.nm⟩ ProcessingFlag.RAW).cube
      = [[[1, 1, 1, 1, 1, 1, 1]]] from rfl]
    rw [remove_outliers_cube_ones, Option.map_some', Option.some_bind]
    rfl
  exact ⟨rfl, hrun, C10_wavelength_unit_forced_nm.2.1 _ _ _ hrun,
    C10_wavelength_unit_forced_nm.2.2.1 _ 1 2 WvlUnit.um rfl (fun hc => by cases hc),
    C10_wavelength_unit_forced_nm.2.2.2 _ rfl rfl⟩

end Reflspeckit
